import Mathlib

/-!
# Verification of the SQL-backup codec (`src/utils/sqlHelpers.ts`)

This file gives a shallow embedding of the backup codec of the statement
application: `sqlEscape`, `extractValues`, `generateSQL` and `parseSQL`,
together with theorems about the claims made in the design document.

Modelling conventions:

* Text is modelled as `List Char` (`Chars`); record fields keep the
  source's names and optionality (`id?: string` becomes `Option Chars`).
* JavaScript numbers are modelled as exact rationals extended with `NaN`
  (`JsNum := Option Rat`, `none` being `NaN`).  Binary floating point
  rounding, exponent/hex numeral forms and exponent-notation printing
  are outside the modelled fragment; every numeric value evaluated by
  the theorems below is an integer or a short decimal fraction, where
  the model agrees with JavaScript.
* The wall-clock samples taken by the code (`new Date().toISOString()`
  and each `Date.now()` call) are passed in as explicit parameters.
* The regular expressions of the source are ASCII patterns; their
  case-insensitive matching is modelled with ASCII case folding.
-/

abbrev Chars := List Char

/-- ASCII lower-case character code, modelling the effect of the `i`
regex flag on the ASCII patterns used by the codec. -/
def lowerCode (c : Char) : Nat :=
  if 65 ≤ c.toNat ∧ c.toNat ≤ 90 then c.toNat + 32 else c.toNat

/-- Case-insensitive character comparison (ASCII). -/
def ciEqChar (a b : Char) : Bool := lowerCode a == lowerCode b

/-- `swCI s p`: the subject `s` starts with the pattern `p`,
case-insensitively. -/
def swCI : Chars → Chars → Bool
  | _, [] => true
  | [], _ :: _ => false
  | c :: s, p :: ps => ciEqChar c p && swCI s ps

/-- `preCompat t p`: `t` is case-insensitively compatible with the
start of pattern `p` — i.e. some continuation of `t` could contain an
occurrence of `p` starting at `t`'s first character. -/
def preCompat : Chars → Chars → Bool
  | _, [] => true
  | [], _ :: _ => true
  | c :: t, p :: ps => ciEqChar c p && preCompat t ps

/-- No nonempty suffix of `seg` is prefix-compatible with `p`: no
occurrence of `p` can start inside `seg`, whatever text follows. -/
def segSafeB : Chars → Chars → Bool
  | [], _ => true
  | c :: t, p => !preCompat (c :: t) p && segSafeB t p

/-- No (case-insensitive) occurrence of `p` inside `s`. -/
def noOccB : Chars → Chars → Bool
  | [], p => !swCI [] p
  | c :: t, p => !swCI (c :: t) p && noOccB t p

/-- The first character of `rest` (if any) is case-insensitively
distinct from every character of `p`: no occurrence of a nonempty
suffix of `p` can start at `rest`. -/
def headNotIn (p rest : Chars) : Bool :=
  match rest with
  | [] => true
  | c :: _ => p.all (fun d => !ciEqChar c d)

/-- ASCII decimal digit test. -/
def isDig (c : Char) : Bool := decide (48 ≤ c.toNat) && decide (c.toNat ≤ 57)

/-- The ASCII whitespace characters matched by the `\s` regex class
(the Unicode additions are outside the modelled fragment). -/
def isWS (c : Char) : Bool :=
  c == ' ' || c == '\t' || c == '\n' || c == '\r' || c == '\x0b' || c == '\x0c'

/-- Numeric value of a digit string (most significant first). -/
def digitsVal (ds : Chars) : Nat := ds.foldl (fun a c => 10 * a + (c.toNat - 48)) 0

/-- JavaScript numbers: an exact rational, or `NaN` (`none`). -/
abbrev JsNum := Option Rat

/-- The numeric value denoted by integer digits `ip` and fraction
digits `fp` with sign `neg`; `NaN` when both parts are empty. -/
def decNum (neg : Bool) (ip fp : Chars) : JsNum :=
  if ip.isEmpty && fp.isEmpty then none
  else
    let n : Int := (digitsVal ip * 10 ^ fp.length + digitsVal fp : Nat)
    some (mkRat (if neg then -n else n) (10 ^ fp.length))

/-- The part of `Number(string)` after the optional sign: digits,
optionally a decimal point and digits (at least one digit in total). -/
def jsNumAfterSign (neg : Bool) (u : Chars) : JsNum :=
  let d := u.takeWhile isDig
  let r1 := u.dropWhile isDig
  if r1.isEmpty then decNum neg d []
  else if r1.head? = some '.' then
    let f := r1.tail
    if (f.dropWhile isDig).isEmpty then decNum neg d (f.takeWhile isDig) else none
  else none

/-- `Number(string)` on the decimal fragment: optional whitespace trim,
empty string is `0`, optional sign, integer digits and/or a fraction.
Hex, exponent and `Infinity` forms are outside the modelled fragment
and fold into `NaN`. -/
def jsNumberParse (s : Chars) : JsNum :=
  let t := ((s.dropWhile isWS).reverse.dropWhile isWS).reverse
  if t.isEmpty then some 0
  else if t.head? = some '-' then jsNumAfterSign true t.tail
  else if t.head? = some '+' then jsNumAfterSign false t.tail
  else jsNumAfterSign false t

/-- Decimal digits of a natural number, most significant first
(structurally recursive so that concrete evaluation reduces). -/
def natDecAux : Nat → Nat → Chars
  | 0, _ => []
  | fuel + 1, n => if n = 0 then [] else natDecAux fuel (n / 10) ++ [Char.ofNat (48 + n % 10)]

/-- Decimal representation of a natural number. -/
def natDec (n : Nat) : Chars := if n = 0 then ['0'] else natDecAux (n + 1) n

/-- Decimal representation of an integer (JavaScript printing of an
integral number). -/
def intRepr : Int → Chars
  | .ofNat n => natDec n
  | .negSucc m => '-' :: natDec (m + 1)

/-- Least `k` with `d ∣ 10 ^ k`, when one exists. -/
def decExp (d : Nat) : Option Nat := (List.range (d + 1)).find? (fun k => decide (d ∣ 10 ^ k))

/-- Number-to-string for a rational: exact integer printing, exact
decimal expansion for denominators dividing a power of ten (matching
JavaScript for such values), and an out-of-fragment fallback otherwise
(JavaScript numbers always have ten-smooth denominators). -/
def ratRepr (q : Rat) : Chars :=
  if q.den = 1 then intRepr q.num
  else
    match decExp q.den with
    | some k =>
        let scaled := q.num.natAbs * 10 ^ k / q.den
        let fds := natDec (scaled % 10 ^ k)
        (if q.num < 0 then ['-'] else []) ++ natDec (scaled / 10 ^ k)
          ++ '.' :: (List.replicate (k - fds.length) '0' ++ fds)
    | none => intRepr q.num ++ '/' :: natDec q.den

/-- JavaScript number-to-string (template-literal conversion). -/
def numRepr : JsNum → Chars
  | none => ['N', 'a', 'N']
  | some q => ratRepr q

/-- The dynamically-typed value union produced by the tuple extractor:
a string, SQL `NULL`, or a number. -/
inductive Value where
  | vStr (s : Chars)
  | vNull
  | vNum (x : JsNum)
deriving DecidableEq, Repr

/-- JavaScript truthiness of a `Value` (`''`, `null`, `0` and `NaN` are
falsy). -/
def jsTruthy : Value → Bool
  | .vStr s => !s.isEmpty
  | .vNull => false
  | .vNum none => false
  | .vNum (some q) => q != 0

/-- JavaScript `String(v)`. -/
def jsToString : Value → Chars
  | .vStr s => s
  | .vNull => ['n', 'u', 'l', 'l']
  | .vNum x => numRepr x

/-- JavaScript `Number(v)`. -/
def jsToNumber : Value → JsNum
  | .vStr s => jsNumberParse s
  | .vNull => some 0
  | .vNum x => x

/-- `String(v || dflt)` where `dflt` is a string constant. -/
def strOr (v : Value) (dflt : Chars) : Chars := if jsTruthy v then jsToString v else dflt

/-- `Number(v || n)` where `n` is a number. -/
def numOr (v : Value) (fb : JsNum) : JsNum := if jsTruthy v then jsToNumber v else fb

/-- Quote doubling: the `replace(/'/g, "''")` body of `sqlEscape`. -/
def escBody : Chars → Chars
  | [] => []
  | c :: r => if c = '\'' then '\'' :: '\'' :: escBody r else c :: escBody r

/-- `sqlEscape` from the source: `NULL` for null/undefined, otherwise a
single-quoted literal with embedded quotes doubled. -/
def sqlEscape : Option Chars → Chars
  | none => ['N', 'U', 'L', 'L']
  | some s => '\'' :: (escBody s ++ ['\''])

/-- The `replace(/''/g, "'")` un-escaping applied to an extracted
string-literal body. -/
def unescape : Chars → Chars
  | [] => []
  | c :: r =>
      if c = '\'' then
        match r with
        | r0 :: r2 => if r0 = '\'' then '\'' :: unescape r2 else c :: unescape (r0 :: r2)
        | [] => [c]
      else c :: unescape r

/-- Scan the body of a single-quoted literal (the characters after the
opening quote): the regex alternative `'((?:[^']|'')*)'` with its
greedy backtracking.  Returns the raw matched body (doubled quotes
kept) and the text after the closing quote. -/
def scanLit : Chars → Option (Chars × Chars)
  | [] => none
  | c :: r =>
      if c = '\'' then
        match r with
        | r0 :: r2 =>
            if r0 = '\'' then
              match scanLit r2 with
              | some p => some ('\'' :: '\'' :: p.1, p.2)
              | none => some ([], '\'' :: r2)
            else some ([], r0 :: r2)
        | [] => some ([], [])
      else (scanLit r).map (fun p => (c :: p.1, p.2))

/-- The optional fractional part `(?:\.\d+)?` after the core of a
numeric token: the consumed characters and the rest. -/
def fracPart : Chars → Chars × Chars
  | [] => ([], [])
  | c :: t =>
      if c = '.' then
        let fd := t.takeWhile isDig
        if fd.isEmpty then ([], c :: t) else ('.' :: fd, t.dropWhile isDig)
      else ([], c :: t)

/-- The numeric regex alternative `[-\d]+(?:\.\d+)?`: a maximal
nonempty run of digits and minus signs, optionally followed by a
decimal point and a maximal nonempty digit run. -/
def numTok (s : Chars) : Option (Chars × Chars) :=
  let core := s.takeWhile (fun c => isDig c || c == '-')
  if core.isEmpty then none
  else
    let fr := fracPart (s.dropWhile (fun c => isDig c || c == '-'))
    some (core ++ fr.1, fr.2)

/-- Case-insensitive `NULL` at the start of the text (the `(NULL)`
regex alternative). -/
def nullTokenAt (s : Chars) : Bool :=
  match s with
  | a :: b :: c :: d :: _ =>
      ciEqChar a 'n' && ciEqChar b 'u' && ciEqChar c 'l' && ciEqChar d 'l'
  | _ => false

/-- The scanning loop of `extractValues`, with explicit fuel (each
iteration consumes at least one character, so `s.length + 1` fuel
always suffices; the fuel keeps the recursion structural so that
concrete documents evaluate). -/
def exValsF : Nat → Chars → List Value
  | 0, _ => []
  | _ + 1, [] => []
  | fuel + 1, c :: r =>
    if c = '\'' then
      match scanLit r with
      | some p => .vStr (unescape p.1) :: exValsF fuel p.2
      | none => exValsF fuel r
    else if nullTokenAt (c :: r) then
      .vNull :: exValsF fuel (r.drop 3)
    else
      match numTok (c :: r) with
      | some p => .vNum (jsNumberParse p.1) :: exValsF fuel p.2
      | none => exValsF fuel r

/-- `extractValues` from the source: repeatedly match, left to right, a
single-quoted literal, the case-insensitive `NULL` token, or a numeric
token, skipping characters that match none of the three. -/
def extractValues (s : Chars) : List Value := exValsF (s.length + 1) s

/-- The `type` union `'CREDIT' | 'DEBIT'` of a transaction. -/
inductive TxType where
  | credit
  | debit
deriving DecidableEq, Repr

/-- The literal text of a transaction type. -/
def typeChars : TxType → Chars
  | .credit => ['C', 'R', 'E', 'D', 'I', 'T']
  | .debit => ['D', 'E', 'B', 'I', 'T']

/-- `Transaction` from `src/types.ts`.  `category?: string` is optional;
`amount: number` is a `JsNum`. -/
structure Transaction where
  date : Chars
  amount : JsNum
  description : Chars
  transaction_code : Chars
  partner_name : Chars
  partner_account : Chars
  type : TxType
  category : Option Chars
deriving DecidableEq, Repr

/-- `StatementData` from `src/types.ts` (all header fields optional). -/
structure StatementData where
  id : Option Chars := none
  fileName : Option Chars := none
  savedAt : Option JsNum := none
  bankName : Option Chars := none
  accountHolder : Option Chars := none
  period : Option Chars := none
  transactions : List Transaction
deriving DecidableEq, Repr

/-- The literal part of the metadata-locator regex
`/INSERT INTO statements\s*\([^)]+\)\s*VALUES\s*\(([\s\S]+?)\);/i`. -/
def stmtMarkerLit : Chars := ("INSERT INTO statements").toList

/-- The literal `VALUES` keyword. -/
def valuesLit : Chars := ("VALUES").toList

/-- The literal part of the transaction-insert marker regex
`/INSERT INTO transactions\s*(?:\([^)]+\))?\s*VALUES/gi`. -/
def txMarkerLit : Chars := ("INSERT INTO transactions").toList

/-- The common prefix of both insert markers, used in the benign-field
conditions of the round-trip theorems. -/
def insertIntoLit : Chars := ("INSERT INTO").toList

/-- `s` contains no case-insensitive occurrence of `INSERT INTO`, so it
cannot harbour a spurious insert-statement marker. -/
def noMarkerB (s : Chars) : Bool := noOccB s insertIntoLit

/-- `s` contains no closing parenthesis (needed of metadata fields: the
metadata capture is cut at the first `);`). -/
def noParenB (s : Chars) : Bool := s.all (fun c => !(c = ')'))

/-- `noParenB` lifted to an optional field (absent fields encode as
`NULL`, which is paren-free). -/
def optNoParen : Option Chars → Bool
  | none => true
  | some s => noParenB s

/-- `noMarkerB` lifted to an optional field. -/
def optNoMarker : Option Chars → Bool
  | none => true
  | some s => noMarkerB s

/-- The value the tuple extractor recovers from an escaped optional
field: the string itself, or `null` for the `NULL` token. -/
def optVal : Option Chars → Value
  | some s => Value.vStr s
  | none => Value.vNull

/-! ## Encoder (`generateSQL`) -/

/-- `data.id || Date.now().toString()`: the statement id token used in
both the metadata tuple and every transaction row. -/
def stmtIdOf (data : StatementData) (nowId : Int) : Chars :=
  match data.id with
  | some s => if s.isEmpty then intRepr nowId else s
  | none => intRepr nowId

/-- First comment line up to the interpolated timestamp. -/
def hdrA1 : Chars := ("-- Smart Bank Statement Backup\n-- Created at: ").toList

/-- Comment text between the timestamp and the bank name. -/
def hdrA2 : Chars := ("\n-- Bank: ").toList

/-- The two fixed `CREATE TABLE` declarations (preceded by the blank
line ending the comment header). -/
def createTablesText : Chars :=
  ("\n\nCREATE TABLE IF NOT EXISTS statements (\n    id TEXT PRIMARY KEY,\n    file_name TEXT,\n    bank_name TEXT,\n    account_holder TEXT,\n    period TEXT,\n    saved_at INTEGER\n);\n\nCREATE TABLE IF NOT EXISTS transactions (\n    id INTEGER PRIMARY KEY AUTOINCREMENT,\n    statement_id TEXT,\n    date TEXT,\n    amount REAL,\n    description TEXT,\n    transaction_code TEXT,\n    partner_name TEXT,\n    partner_account TEXT,\n    type TEXT,\n    category TEXT,\n    FOREIGN KEY(statement_id) REFERENCES statements(id)\n);\n\n").toList

/-- `data.bankName || 'Unknown'` as displayed in the comment header. -/
def bankDisp (data : StatementData) : Chars :=
  match data.bankName with
  | some s => if s.isEmpty then ("Unknown").toList else s
  | none => ("Unknown").toList

/-- Everything `generateSQL` emits before the metadata insert
statement: the comment header followed by the table declarations. -/
def preambleText (nowIso : Chars) (data : StatementData) : Chars :=
  hdrA1 ++ nowIso ++ hdrA2 ++ bankDisp data ++ createTablesText

/-- The interior of the metadata column list. -/
def metaColsInn : Chars :=
  ("id, file_name, bank_name, account_holder, period, saved_at").toList

/-- The column list of the metadata insert statement. -/
def metaCols : Chars := '(' :: metaColsInn ++ [')']

/-- Fixed text of the metadata insert statement up to its opening value
parenthesis (decomposed along the pieces the locator regex consumes;
`metaHead_text` below checks it against the source's template text). -/
def metaHead : Chars :=
  stmtMarkerLit ++ (" ").toList ++ metaCols ++ (" ").toList ++ valuesLit ++ (" (").toList

/-- The separator between metadata values (`,` then newline and
indentation). -/
def metaSep : Chars := (",\n    ").toList

/-- The interior of the metadata value list, from just after `(` up to
just before the closing `);` (including the leading newline and the
final newline, as emitted by the template literal). -/
def metaInner (stmtId : Chars) (data : StatementData) (nowSaved : Int) : Chars :=
  ('\n' :: ("    ").toList)
    ++ sqlEscape (some stmtId) ++ metaSep
    ++ sqlEscape data.fileName ++ metaSep
    ++ sqlEscape data.bankName ++ metaSep
    ++ sqlEscape data.accountHolder ++ metaSep
    ++ sqlEscape data.period ++ metaSep
    ++ intRepr nowSaved ++ ['\n']

/-- The full metadata insert statement (ending with `);` and a blank
line). -/
def metaStmtText (stmtId : Chars) (data : StatementData) (nowSaved : Int) : Chars :=
  metaHead ++ metaInner stmtId data nowSaved ++ (");\n\n").toList

/-- The interior of one transaction tuple (between its parentheses). -/
def rowInner (stmtId : Chars) (tx : Transaction) : Chars :=
  sqlEscape (some stmtId) ++ (", ").toList
    ++ sqlEscape (some tx.date) ++ (", ").toList
    ++ numRepr tx.amount ++ (", ").toList
    ++ sqlEscape (some tx.description) ++ (", ").toList
    ++ sqlEscape (some tx.transaction_code) ++ (", ").toList
    ++ sqlEscape (some tx.partner_name) ++ (", ").toList
    ++ sqlEscape (some tx.partner_account) ++ (", ").toList
    ++ sqlEscape (some (typeChars tx.type)) ++ (", ").toList
    ++ sqlEscape tx.category

/-- One transaction tuple literal `(...)`. -/
def rowText (stmtId : Chars) (tx : Transaction) : Chars :=
  '(' :: rowInner stmtId tx ++ [')']

/-- `values.join(',\n')`. -/
def joinRows : List Chars → Chars
  | [] => []
  | [r] => r
  | r :: rest => r ++ ',' :: '\n' :: joinRows rest

/-- The interior of the transaction column list. -/
def txColsInn : Chars :=
  ("statement_id, date, amount, description, transaction_code, partner_name, partner_account, type, category").toList

/-- The column list of the transaction insert statement. -/
def txCols : Chars := '(' :: txColsInn ++ [')']

/-- Fixed text of the transaction insert statement header (including
the trailing newline after `VALUES`; `txHead_text` below checks it
against the source's template text). -/
def txHead : Chars :=
  txMarkerLit ++ (" ").toList ++ txCols ++ (" ").toList ++ valuesLit ++ ("\n").toList

/-- The transaction insert statement for a nonempty list of rows. -/
def txStmtText (stmtId : Chars) (txs : List Transaction) : Chars :=
  txHead ++ joinRows (txs.map (rowText stmtId)) ++ (";\n").toList

/-- `generateSQL` from the source.  `nowIso` is `new Date().toISOString()`;
`nowId` and `nowSaved` are the two separate `Date.now()` samples (lines
43 and 80 of the source). -/
def generateSQL (nowIso : Chars) (nowId nowSaved : Int) (data : StatementData) : Chars :=
  let stmtId := stmtIdOf data nowId
  preambleText nowIso data
    ++ metaStmtText stmtId data nowSaved
    ++ (if data.transactions.isEmpty then [] else txStmtText stmtId data.transactions)

/-! ## Decoder (`parseSQL`) -/

/-- Consume a case-insensitive literal pattern, returning the remaining
subject. -/
def matchCI : Chars → Chars → Option Chars
  | [], s => some s
  | _ :: _, [] => none
  | p :: ps, c :: s => if ciEqChar c p then matchCI ps s else none

/-- Consume `\s*`. -/
def wsStar (s : Chars) : Chars := s.dropWhile isWS

/-- Consume `\([^)]+\)`. -/
def parenGroup : Chars → Option Chars
  | [] => none
  | c :: r =>
      if c = '(' then
        let inner := r.takeWhile (fun x => x != ')')
        if inner.isEmpty then none
        else
          match r.dropWhile (fun x => x != ')') with
          | x :: r2 => if x = ')' then some r2 else none
          | [] => none
      else none

/-- The lazy capture `([\s\S]+?)\);`: the shortest nonempty prefix
followed by `);`, returning the capture and the rest. -/
def lcAux : Chars → Option (Chars × Chars)
  | [] => none
  | c :: r =>
      if c = ')' then
        match r with
        | ';' :: r2 => some ([], r2)
        | _ => (lcAux r).map (fun p => (c :: p.1, p.2))
      else (lcAux r).map (fun p => (c :: p.1, p.2))

/-- `([\s\S]+?)\);` with a nonempty capture. -/
def lazyCap : Chars → Option (Chars × Chars)
  | [] => none
  | c :: r => (lcAux r).map (fun p => (c :: p.1, p.2))

/-- Attempt the metadata-locator regex at the start of `s`, returning
the captured value-list interior on success. -/
def matchStmtAt (s : Chars) : Option Chars :=
  (matchCI stmtMarkerLit s).bind fun s1 =>
  (parenGroup (wsStar s1)).bind fun s2 =>
  (matchCI valuesLit (wsStar s2)).bind fun s3 =>
  match wsStar s3 with
  | c :: s4 => if c = '(' then (lazyCap s4).map Prod.fst else none
  | [] => none

/-- Leftmost match of the metadata-locator regex. -/
def findStmt : Chars → Option Chars
  | [] => none
  | c :: r =>
      match matchStmtAt (c :: r) with
      | some cap => some cap
      | none => findStmt r

/-- Attempt the transaction-insert marker regex at the start of `s`,
returning the text after the match (after `VALUES`) on success.  The
optional column-list group is tried first, as the regex engine does. -/
def matchTxAt (s : Chars) : Option Chars :=
  (matchCI txMarkerLit s).bind fun s1 =>
  let s2 := wsStar s1
  match (parenGroup s2).bind (fun s3 => matchCI valuesLit (wsStar s3)) with
  | some r => some r
  | none => matchCI valuesLit s2

/-- Leftmost match of the transaction-insert marker regex, returning
the text after the match. -/
def findTx : Chars → Option Chars
  | [] => none
  | c :: r =>
      match matchTxAt (c :: r) with
      | some rest => some rest
      | none => findTx r

/-- Default for out-of-range value access (JavaScript `undefined`;
only ever used behind a length guard). -/
def valAt (cols : List Value) (i : Nat) : Value := cols.getD i .vNull

/-- The transaction object built from one extracted tuple
(`parseSQL` lines 165–174). -/
def mkTx (cols : List Value) : Transaction :=
  { date := strOr (valAt cols 1) []
  , amount := numOr (valAt cols 2) (some 0)
  , description := strOr (valAt cols 3) []
  , transaction_code := strOr (valAt cols 4) []
  , partner_name := strOr (valAt cols 5) []
  , partner_account := strOr (valAt cols 6) []
  , type := if jsToString (valAt cols 7) = ("CREDIT").toList then .credit else .debit
  , category := some (strOr (valAt cols 8) []) }

/-- The per-character state machine of `parseSQL` (lines 134–185),
emitting the interior text of each completed top-level tuple.  State:
remaining text, `inString`, paren depth, and the pending tuple buffer
(`none` iff `tupleStart === -1`). -/
def scanTuples : Chars → Bool → Int → Option Chars → List Chars
  | [], _, _, _ => []
  | c :: rest, true, d, buf =>
      if c = '\'' then
        match rest with
        | r0 :: rest2 =>
            if r0 = '\'' then
              scanTuples rest2 true d ((buf.map (· ++ ['\''])).map (· ++ ['\'']))
            else scanTuples (r0 :: rest2) false d (buf.map (· ++ ['\'']))
        | [] => scanTuples [] false d (buf.map (· ++ ['\'']))
      else scanTuples rest true d (buf.map (· ++ [c]))
  | c :: rest, false, d, buf =>
      if c = '\'' then scanTuples rest true d (buf.map (· ++ ['\'']))
      else if c = '(' then
        if d = 0 then scanTuples rest false (d + 1) (some [])
        else scanTuples rest false (d + 1) (buf.map (· ++ ['(']))
      else if c = ')' then
        if d - 1 = 0 then
          match buf with
          | some b => b :: scanTuples rest false (d - 1) none
          | none => scanTuples rest false (d - 1) none
        else scanTuples rest false (d - 1) (buf.map (· ++ [')']))
      else if c = ';' ∧ d = 0 then []
      else scanTuples rest false d (buf.map (· ++ [c]))

/-- The fused form of the same loop as the source writes it: each
completed tuple is extracted and, when it has at least 9 values,
immediately mapped to a `Transaction`. -/
def scanRows : Chars → Bool → Int → Option Chars → List Transaction
  | [], _, _, _ => []
  | c :: rest, true, d, buf =>
      if c = '\'' then
        match rest with
        | r0 :: rest2 =>
            if r0 = '\'' then
              scanRows rest2 true d ((buf.map (· ++ ['\''])).map (· ++ ['\'']))
            else scanRows (r0 :: rest2) false d (buf.map (· ++ ['\'']))
        | [] => scanRows [] false d (buf.map (· ++ ['\'']))
      else scanRows rest true d (buf.map (· ++ [c]))
  | c :: rest, false, d, buf =>
      if c = '\'' then scanRows rest true d (buf.map (· ++ ['\'']))
      else if c = '(' then
        if d = 0 then scanRows rest false (d + 1) (some [])
        else scanRows rest false (d + 1) (buf.map (· ++ ['(']))
      else if c = ')' then
        if d - 1 = 0 then
          match buf with
          | some b =>
              (if 9 ≤ (extractValues b).length then [mkTx (extractValues b)] else [])
                ++ scanRows rest false (d - 1) none
          | none => scanRows rest false (d - 1) none
        else scanRows rest false (d - 1) (buf.map (· ++ [')']))
      else if c = ';' ∧ d = 0 then []
      else scanRows rest false d (buf.map (· ++ [c]))

/-- One completed tuple's contribution to the result list: kept (as a
`Transaction`) precisely when at least 9 values were extracted. -/
def mkRowOpt (t : Chars) : Option Transaction :=
  if 9 ≤ (extractValues t).length then some (mkTx (extractValues t)) else none

/-- The outer marker loop of `parseSQL` (lines 125–186) with explicit
fuel: each further `exec` resumes from the end of the previous marker
match, which is always at least one character further on. -/
def txLoopF : Nat → Chars → List Transaction
  | 0, _ => []
  | fuel + 1, s =>
      match findTx s with
      | none => []
      | some rest => scanRows rest false 0 none ++ txLoopF fuel rest

/-- The outer marker loop of `parseSQL`. -/
def txLoop (s : Chars) : List Transaction := txLoopF (s.length + 1) s

/-- The tuple-string collector corresponding to `txLoop`. -/
def allTuplesF : Nat → Chars → List Chars
  | 0, _ => []
  | fuel + 1, s =>
      match findTx s with
      | none => []
      | some rest => scanTuples rest false 0 none ++ allTuplesF fuel rest

/-- Every completed top-level tuple of every transaction insert block,
in encounter order. -/
def allTuples (s : Chars) : List Chars := allTuplesF (s.length + 1) s

/-- The single generic error surfaced by the decoder
(`"File SQL bị lỗi hoặc không đúng định dạng."`). -/
def genericErr : Chars := ("File SQL bị lỗi hoặc không đúng định dạng.").toList

/-- `parseSQL` from the source.  `nowDec` is the `Date.now()` sample of
line 194 (the fallback for a falsy stored `saved_at`). -/
def parseSQL (nowDec : Int) (s : Chars) : Except Chars StatementData :=
  match findStmt s with
  | none => .error genericErr
  | some cap =>
      let stmtData := extractValues cap
      if stmtData.length < 6 then .error genericErr
      else .ok
        { id := some (strOr (valAt stmtData 0) [])
        , fileName := some (strOr (valAt stmtData 1) (("Recovered_Statement").toList))
        , bankName := some (strOr (valAt stmtData 2) [])
        , accountHolder := some (strOr (valAt stmtData 3) [])
        , period := some (strOr (valAt stmtData 4) [])
        , savedAt := some (numOr (valAt stmtData 5) (some (nowDec : Rat)))
        , transactions := txLoop s }

/-- The characters JavaScript number printing can emit in this model. -/
def numOutChar (c : Char) : Bool :=
  isDig c || c = '-' || c = '.' || c = '/' || c = 'N' || c = 'a'

/-- A character the extractor always skips: not a quote, cannot start
the null token, and cannot start a numeric token. -/
def sepOK (c : Char) : Bool :=
  !(c == '\'') && !(ciEqChar c 'n') && !(isDig c || c == '-')

/-- Boundary condition after a numeric token: the next character cannot
extend the core and cannot start a fraction. -/
def numBoundary (r : Chars) : Bool :=
  match r with
  | [] => true
  | c :: _ => !(isDig c || c == '-') && !(c == '.')

/-- Benign metadata fields: no embedded `INSERT INTO ` text (which
could masquerade as a statement marker) and no closing parenthesis
(which would cut the metadata capture short). -/
def metaFieldsOK (data : StatementData) : Bool :=
  optNoMarker data.id && optNoParen data.id
  && optNoMarker data.fileName && optNoParen data.fileName
  && optNoMarker data.bankName && optNoParen data.bankName
  && optNoMarker data.accountHolder && optNoParen data.accountHolder
  && optNoMarker data.period && optNoParen data.period

/-- Benign transaction text fields: no embedded `INSERT INTO ` text.
Quotes, parentheses, commas and semicolons are all allowed. -/
def txFieldsOK (tx : Transaction) : Bool :=
  noMarkerB tx.date && noMarkerB tx.description && noMarkerB tx.transaction_code
  && noMarkerB tx.partner_name && noMarkerB tx.partner_account
  && optNoMarker tx.category

/-- How one decode–encode round trip rewrites a transaction: every
field survives except that an absent category comes back as the
present empty string (`String(cols[8] || '')`). -/
def roundTx (tx : Transaction) : Transaction :=
  { tx with category := some (tx.category.getD []) }

/-- The decode result with its `savedAt` field erased (used to state
what is deterministic about the decoder). -/
def stripSaved : Except Chars StatementData → Except Chars StatementData
  | .ok r => .ok { r with savedAt := none }
  | .error e => .error e

instance : DecidableEq (Except Chars StatementData) := fun a b =>
  match a, b with
  | .ok x, .ok y => decidable_of_iff (x = y) (by simp)
  | .error x, .error y => decidable_of_iff (x = y) (by simp)
  | .ok _, .error _ => isFalse (by simp)
  | .error _, .ok _ => isFalse (by simp)

/-- The decoded `savedAt` field of a decode result. -/
def savedOf : Except Chars StatementData → Option JsNum
  | .ok r => r.savedAt
  | .error _ => none

/-- The transaction list of a decode result (empty on error). -/
def txsOf : Except Chars StatementData → List Transaction
  | .ok r => r.transactions
  | .error _ => []

/-- The amount is an integral JavaScript number (the printed form then
contains no decimal point and re-parses exactly). -/
def intAmountB (tx : Transaction) : Bool :=
  match tx.amount with
  | some q => q.den == 1
  | none => false

/-- The token shape the source's numeric alternative `[-\d]+(\.\d+)?`
actually accepts: a nonempty run of digits and minus signs, optionally
followed by a decimal point and a nonempty digit run. -/
def codeTokenB (t : Chars) : Bool :=
  let core := t.takeWhile (fun c => isDig c || c == '-')
  let rest := t.dropWhile (fun c => isDig c || c == '-')
  !core.isEmpty && (rest.isEmpty ||
    (rest.head? == some '.' && !(rest.drop 1).isEmpty && (rest.drop 1).all isDig))

/-- The token shape the specification describes: an optional single
leading minus sign, one or more digits, optionally a decimal point
followed by digits. -/
def specNumShapeB (t : Chars) : Bool :=
  let u := if t.head? == some '-' then t.drop 1 else t
  let ds := u.takeWhile isDig
  let rest := u.dropWhile isDig
  !ds.isEmpty && (rest.isEmpty ||
    (rest.head? == some '.' && !(rest.drop 1).isEmpty && (rest.drop 1).all isDig))

/-! ### Concrete fixtures for the witnesses and counterexamples -/

/-- A concrete ISO timestamp as sampled at encode time. -/
def isoX : Chars := ("2024-01-01T00:00:00.000Z").toList

/-- A plain benign transaction. -/
def txPlain : Transaction :=
  { date := ("2024-01-02").toList
  , amount := some ((5 : Int) : Rat)
  , description := ("coffee").toList
  , transaction_code := ("TC01").toList
  , partner_name := ("Alice").toList
  , partner_account := ("111222").toList
  , type := .credit
  , category := some (("food").toList) }

/-- A record whose single transaction has no category. -/
def dataC1 : StatementData :=
  { id := some (("S1").toList)
  , fileName := some (("f.sql").toList)
  , bankName := some (("VCB").toList)
  , accountHolder := some (("Ann").toList)
  , period := some (("2024-01").toList)
  , transactions := [{ txPlain with category := none }] }

/-- A transaction whose description is exactly a transaction-insert
marker. -/
def txMarkerDesc : Transaction :=
  { txPlain with description := ("INSERT INTO transactions VALUES").toList }

/-- A transaction whose description is a parenthesized number list. -/
def txParenDesc : Transaction :=
  { txPlain with description := ("(9,8,7,6,5,4,3,2,1)").toList, type := .debit }

/-- A record whose two transactions together trigger a phantom tuple
on decode. -/
def dataC2cx : StatementData :=
  { id := some (("S2").toList)
  , fileName := some (("g.sql").toList)
  , bankName := some (("ACB").toList)
  , accountHolder := some (("Bob").toList)
  , period := some (("2024-02").toList)
  , transactions := [txMarkerDesc, txParenDesc] }

/-- The description `O'Brien's "gift"` from the specification. -/
def descOBrien : Chars :=
  ['O', '\'', 'B', 'r', 'i', 'e', 'n', '\'', 's', ' ', '"', 'g', 'i', 'f', 't', '"']

/-- Three transactions whose descriptions hold a quote, a tuple
boundary and a semicolon respectively. -/
def dataC2w : StatementData :=
  { id := some (("S3").toList)
  , fileName := some (("h.sql").toList)
  , bankName := some (("TCB").toList)
  , accountHolder := some (("Cam").toList)
  , period := some (("2024-03").toList)
  , transactions :=
      [ { txPlain with description := descOBrien }
      , { txPlain with description := ("x), (y").toList, type := .debit }
      , { txPlain with description := ("a; DROP TABLE users").toList } ] }

/-- A well-formed metadata statement whose stored `saved_at` is the
falsy number `0`. -/
def docC3 : Chars := ("INSERT INTO statements (c) VALUES (1,2,3,4,5,0);").toList

/-- A record that carries an explicit `savedAt` timestamp. -/
def dataC4 : StatementData :=
  { id := some (("S4").toList)
  , savedAt := some (some ((123 : Int) : Rat))
  , transactions := [txPlain] }

/-- Two records that differ only in bank name. -/
def dataC5a : StatementData :=
  { bankName := some (("Alpha").toList), transactions := [] }

/-- See `dataC5a`. -/
def dataC5b : StatementData :=
  { bankName := some (("Beta").toList), transactions := [] }

/-- Same bank name as `dataC5a`, different id. -/
def dataC5c : StatementData :=
  { bankName := some (("Alpha").toList), id := some (("Z").toList), transactions := [] }

/-- A record whose id is present but empty. -/
def dataC10 : StatementData :=
  { id := some [], transactions := [] }

/-- An all-numeric document whose transaction insert holds a 9-column
tuple, a 3-column tuple and another 9-column tuple. -/
def docC8 : Chars :=
  ("INSERT INTO statements (c) VALUES (1,2,3,4,5,6);\nINSERT INTO transactions VALUES (1,2,3,4,5,6,7,8,9),(1,2,3),(9,8,7,6,5,4,3,2,1);").toList

/-- The record `docC8` decodes to. -/
def recC8 : StatementData :=
  { id := some ['1']
  , fileName := some ['2']
  , bankName := some ['3']
  , accountHolder := some ['4']
  , period := some ['5']
  , savedAt := some (some ((6 : Int) : Rat))
  , transactions :=
      [ { date := ['2'], amount := some ((3 : Int) : Rat), description := ['4']
        , transaction_code := ['5'], partner_name := ['6'], partner_account := ['7']
        , type := .debit, category := some ['9'] }
      , { date := ['8'], amount := some ((7 : Int) : Rat), description := ['6']
        , transaction_code := ['5'], partner_name := ['4'], partner_account := ['3']
        , type := .debit, category := some ['1'] } ] }

/-- Statement id shared by the two concatenated statements of the C9
fixtures. -/
def sidC9 : Chars := ("S9").toList

/-- Header fields for the C9 fixture documents. -/
def metaC9 : StatementData :=
  { id := some sidC9
  , fileName := some (("f").toList)
  , bankName := some (("B").toList)
  , accountHolder := some (("H").toList)
  , period := some (("P").toList)
  , transactions := [] }

/-- First statement's transaction: its description embeds a marker and
a complete 9-column tuple. -/
def txC9a : Transaction :=
  { txPlain with
      description := ("INSERT INTO transactions VALUES (1,2,3,4,5,6,7,8,9)").toList }

/-- Second statement's transaction. -/
def txC9b : Transaction :=
  { txPlain with description := ("(5,6,7)").toList, type := .debit }

/-- The C9 fixture pieces: shared metadata and two transaction insert
statements. -/
def docC9M : Chars := metaStmtText sidC9 metaC9 9

/-- See `docC9M`. -/
def docC9T1 : Chars := txStmtText sidC9 [txC9a]

/-- See `docC9M`. -/
def docC9T2 : Chars := txStmtText sidC9 [txC9b]

/-- A character the block scanner passes through untouched outside
strings: not a quote, not a parenthesis, not a semicolon. -/
def tupPlain (c : Char) : Bool :=
  !(c == '\'') && !(c == '(') && !(c == ')') && !(c == ';')

/-! ## Basic lemmas -/

@[simp] theorem scanLit_nil : scanLit [] = none := rfl

@[simp] theorem scanLit_one : scanLit ['\''] = some ([], []) := rfl

theorem scanLit_cons_ne {c : Char} (r : Chars) (hc : ¬ c = '\'') :
    scanLit (c :: r) = (scanLit r).map (fun p => (c :: p.1, p.2)) := by
  rw [scanLit.eq_def]; simp only [if_neg hc]

@[simp] theorem scanLit_esc (r2 : Chars) :
    scanLit ('\'' :: '\'' :: r2) =
      match scanLit r2 with
      | some p => some ('\'' :: '\'' :: p.1, p.2)
      | none => some ([], '\'' :: r2) := by
  rw [scanLit.eq_def]; simp

theorem scanLit_close {r0 : Char} (r2 : Chars) (h : ¬ r0 = '\'') :
    scanLit ('\'' :: r0 :: r2) = some ([], r0 :: r2) := by
  rw [scanLit.eq_def]; simp [h]

theorem scanLit_length (s : Chars) : ∀ p, scanLit s = some p → p.2.length < s.length := by
  induction s using scanLit.induct with
  | case1 => intro p h; simp at h
  | case2 r2 q hq ih =>
      intro p h
      rw [scanLit_esc, hq] at h
      cases h
      have := ih q hq
      simp only [List.length_cons]
      omega
  | case3 r2 hq ih =>
      intro p h
      rw [scanLit_esc, hq] at h
      cases h
      simp
  | case4 r0 r2 hr0 =>
      intro p h
      rw [scanLit_close r2 hr0] at h
      cases h
      simp
  | case5 =>
      intro p h
      rw [scanLit_one] at h
      cases h
      simp
  | case6 c r hc ih =>
      intro p h
      rw [scanLit_cons_ne r hc] at h
      cases hq : scanLit r with
      | none => rw [hq] at h; simp at h
      | some q =>
          rw [hq] at h
          simp only [Option.map_some'] at h
          cases h
          have := ih q hq
          simp only [List.length_cons]
          omega

theorem dropWhile_len_le (p : Char → Bool) (l : Chars) :
    (l.dropWhile p).length ≤ l.length := by
  conv_rhs => rw [show l = l.takeWhile p ++ l.dropWhile p from (List.takeWhile_append_dropWhile p l).symm]
  rw [List.length_append]
  omega

theorem takeWhile_add_dropWhile_len (p : Char → Bool) (l : Chars) :
    (l.takeWhile p).length + (l.dropWhile p).length = l.length := by
  conv_rhs => rw [show l = l.takeWhile p ++ l.dropWhile p from (List.takeWhile_append_dropWhile p l).symm]
  rw [List.length_append]

theorem fracPart_length (r : Chars) : (fracPart r).2.length ≤ r.length := by
  rw [fracPart.eq_def]
  split
  · simp
  · rename_i c t
    split
    · dsimp only
      split
      · simp
      · have := dropWhile_len_le isDig t
        simp only [List.length_cons]
        omega
    · simp

theorem numTok_length {s : Chars} {p : Chars × Chars} (h : numTok s = some p) :
    p.2.length < s.length := by
  unfold numTok at h
  by_cases hc : (s.takeWhile (fun c => isDig c || c == '-')).isEmpty
  · simp [hc] at h
  · simp only [hc, Bool.false_eq_true, if_false] at h
    cases h
    show (fracPart (s.dropWhile (fun c => isDig c || c == '-'))).2.length < s.length
    have h1 : (s.dropWhile (fun c => isDig c || c == '-')).length < s.length := by
      have hlen := takeWhile_add_dropWhile_len (fun c => isDig c || c == '-') s
      have hne : (s.takeWhile (fun c => isDig c || c == '-')).length ≠ 0 := by
        simpa [List.isEmpty_iff, List.length_eq_zero] using hc
      omega
    have h2 := fracPart_length (s.dropWhile (fun c => isDig c || c == '-'))
    omega

theorem exValsF_irrel : ∀ (f₁ : Nat) (s : Chars) (f₂ : Nat), s.length < f₁ →
    s.length < f₂ → exValsF f₁ s = exValsF f₂ s := by
  intro f₁
  induction f₁ with
  | zero => intro s f₂ h1 _; omega
  | succ f ih =>
      intro s f₂ h1 h2
      cases f₂ with
      | zero => omega
      | succ f' =>
          cases s with
          | nil => rfl
          | cons c r =>
              simp only [List.length_cons] at h1 h2
              simp only [exValsF]
              by_cases hc : c = '\''
              · simp only [hc, if_true]
                cases hs : scanLit r with
                | some p =>
                    dsimp only
                    have hl := scanLit_length r p hs
                    rw [ih p.2 f' (by omega) (by omega)]
                | none =>
                    dsimp only
                    rw [ih r f' (by omega) (by omega)]
              · simp only [hc, Bool.false_eq_true, if_false]
                by_cases hn : nullTokenAt (c :: r)
                · simp only [hn, if_true]
                  have : (r.drop 3).length ≤ r.length := by
                    rw [List.length_drop]; omega
                  rw [ih (r.drop 3) f' (by omega) (by omega)]
                · simp only [hn, Bool.false_eq_true, if_false]
                  cases ht : numTok (c :: r) with
                  | some p =>
                      dsimp only
                      have hl := numTok_length ht
                      simp only [List.length_cons] at hl
                      rw [ih p.2 f' (by omega) (by omega)]
                  | none =>
                      dsimp only
                      rw [ih r f' (by omega) (by omega)]

theorem exValsF_eq {f : Nat} {s : Chars} (h : s.length < f) :
    exValsF f s = extractValues s :=
  exValsF_irrel f s (s.length + 1) h (Nat.lt_succ_self _)

@[simp] theorem extractValues_nil : extractValues [] = [] := rfl

theorem extractValues_quote {r : Chars} {p : Chars × Chars} (hs : scanLit r = some p) :
    extractValues ('\'' :: r) = .vStr (unescape p.1) :: extractValues p.2 := by
  have hl := scanLit_length r p hs
  show exValsF (r.length + 1 + 1) ('\'' :: r) = _
  simp only [exValsF, if_true, hs]
  rw [exValsF_eq (by omega)]

theorem extractValues_quote_fail {r : Chars} (hs : scanLit r = none) :
    extractValues ('\'' :: r) = extractValues r := by
  show exValsF (r.length + 1 + 1) ('\'' :: r) = _
  simp only [exValsF, if_true, hs]
  exact exValsF_eq (by omega)

theorem extractValues_null {c : Char} {r : Chars} (hc : ¬ c = '\'')
    (hn : nullTokenAt (c :: r)) :
    extractValues (c :: r) = .vNull :: extractValues (r.drop 3) := by
  show exValsF (r.length + 1 + 1) (c :: r) = _
  simp only [exValsF, hc, Bool.false_eq_true, if_false, hn, if_true]
  have : (r.drop 3).length ≤ r.length := by rw [List.length_drop]; omega
  rw [exValsF_eq (by omega)]

theorem extractValues_num {c : Char} {r : Chars} {p : Chars × Chars} (hc : ¬ c = '\'')
    (hn : ¬ nullTokenAt (c :: r)) (ht : numTok (c :: r) = some p) :
    extractValues (c :: r) = .vNum (jsNumberParse p.1) :: extractValues p.2 := by
  have hl := numTok_length ht
  simp only [List.length_cons] at hl
  show exValsF (r.length + 1 + 1) (c :: r) = _
  simp only [exValsF, hc, Bool.false_eq_true, if_false, hn, ht]
  rw [exValsF_eq (by omega)]

theorem extractValues_skip {c : Char} {r : Chars} (hc : ¬ c = '\'')
    (hn : ¬ nullTokenAt (c :: r)) (ht : numTok (c :: r) = none) :
    extractValues (c :: r) = extractValues r := by
  show exValsF (r.length + 1 + 1) (c :: r) = _
  simp only [exValsF, hc, Bool.false_eq_true, if_false, hn, ht]
  exact exValsF_eq (by omega)

/-! ## Data model (`src/types.ts`) -/

theorem matchCI_length : ∀ (p s r : Chars), matchCI p s = some r →
    r.length + p.length = s.length := by
  intro p
  induction p with
  | nil => intro s r h; cases h; simp
  | cons x ps ih =>
      intro s r h
      cases s with
      | nil => simp [matchCI] at h
      | cons c s' =>
          rw [matchCI.eq_def] at h
          by_cases hx : ciEqChar c x
          · simp only [hx, if_pos] at h
            have := ih s' r h
            simp only [List.length_cons]
            omega
          · simp [hx] at h

theorem parenGroup_length {s r : Chars} (h : parenGroup s = some r) :
    r.length < s.length := by
  cases s with
  | nil => simp [parenGroup] at h
  | cons c rest =>
      rw [parenGroup.eq_def] at h
      by_cases hc : c = '('
      · simp only [hc, if_pos rfl] at h
        by_cases hin : (rest.takeWhile (fun x => x != ')')).isEmpty
        · simp [hin] at h
        · simp only [hin, Bool.false_eq_true, if_false] at h
          cases hdw : rest.dropWhile (fun x => x != ')') with
          | nil => rw [hdw] at h; cases h
          | cons x r2 =>
              rw [hdw] at h
              by_cases hx : x = ')'
              · simp only [hx, if_pos rfl] at h
                cases h
                have h1 := dropWhile_len_le (fun x => x != ')') rest
                rw [hdw] at h1
                simp only [List.length_cons] at h1 ⊢
                omega
              · simp [hx] at h
      · simp [hc] at h

theorem wsStar_length (s : Chars) : (wsStar s).length ≤ s.length :=
  dropWhile_len_le isWS s

theorem matchTxAt_length {s r : Chars} (h : matchTxAt s = some r) :
    r.length < s.length := by
  unfold matchTxAt at h
  cases h1 : matchCI txMarkerLit s with
  | none => rw [h1] at h; cases h
  | some s1 =>
      rw [h1] at h
      have h' : (match (parenGroup (wsStar s1)).bind (fun s3 => matchCI valuesLit (wsStar s3)) with
          | some r => some r
          | none => matchCI valuesLit (wsStar s1)) = some r := h
      clear h
      have hs1 : s1.length + txMarkerLit.length = s.length := matchCI_length _ _ _ h1
      have hlit : txMarkerLit.length = 24 := by decide
      have hws : (wsStar s1).length ≤ s1.length := wsStar_length s1
      cases h2 : (parenGroup (wsStar s1)).bind (fun s3 => matchCI valuesLit (wsStar s3)) with
      | some r' =>
          rw [h2] at h'
          cases h'
          cases h3 : parenGroup (wsStar s1) with
          | none => rw [h3] at h2; cases h2
          | some s3 =>
              rw [h3] at h2
              have h2' : matchCI valuesLit (wsStar s3) = some r := h2
              have h4 := parenGroup_length h3
              have h5 := wsStar_length s3
              have h6 := matchCI_length valuesLit (wsStar s3) r h2'
              omega
      | none =>
          rw [h2] at h'
          have h6 := matchCI_length valuesLit (wsStar s1) r h'
          have : valuesLit.length = 6 := by decide
          omega

theorem findTx_length : ∀ (s r : Chars), findTx s = some r → r.length < s.length := by
  intro s
  induction s with
  | nil => intro r h; simp [findTx] at h
  | cons c s' ih =>
      intro r h
      have h' : (match matchTxAt (c :: s') with
          | some rest => some rest
          | none => findTx s') = some r := h
      clear h
      cases hm : matchTxAt (c :: s') with
      | some rest =>
          rw [hm] at h'
          cases h'
          exact matchTxAt_length hm
      | none =>
          rw [hm] at h'
          have := ih r h'
          simp only [List.length_cons]
          omega

theorem txLoopF_irrel : ∀ (f₁ : Nat) (s : Chars) (f₂ : Nat), s.length < f₁ →
    s.length < f₂ → txLoopF f₁ s = txLoopF f₂ s := by
  intro f₁
  induction f₁ with
  | zero => intro s f₂ h1 _; omega
  | succ f ih =>
      intro s f₂ h1 h2
      cases f₂ with
      | zero => omega
      | succ f' =>
          simp only [txLoopF]
          cases hm : findTx s with
          | none => rfl
          | some rest =>
              dsimp only
              have := findTx_length s rest hm
              rw [ih rest f' (by omega) (by omega)]

theorem txLoop_unfold (s : Chars) :
    txLoop s = match findTx s with
      | none => []
      | some rest => scanRows rest false 0 none ++ txLoop rest := by
  cases hm : findTx s with
  | none =>
      show txLoopF (s.length + 1) s = _
      simp only [txLoopF, hm]
  | some rest =>
      show txLoopF (s.length + 1) s = _
      simp only [txLoopF, hm]
      try dsimp only
      have := findTx_length s rest hm
      congr 1
      exact txLoopF_irrel s.length rest (rest.length + 1) (by omega) (Nat.lt_succ_self _)

theorem allTuplesF_irrel : ∀ (f₁ : Nat) (s : Chars) (f₂ : Nat), s.length < f₁ →
    s.length < f₂ → allTuplesF f₁ s = allTuplesF f₂ s := by
  intro f₁
  induction f₁ with
  | zero => intro s f₂ h1 _; omega
  | succ f ih =>
      intro s f₂ h1 h2
      cases f₂ with
      | zero => omega
      | succ f' =>
          simp only [allTuplesF]
          cases hm : findTx s with
          | none => rfl
          | some rest =>
              dsimp only
              have := findTx_length s rest hm
              rw [ih rest f' (by omega) (by omega)]

theorem allTuples_unfold (s : Chars) :
    allTuples s = match findTx s with
      | none => []
      | some rest => scanTuples rest false 0 none ++ allTuples rest := by
  cases hm : findTx s with
  | none =>
      show allTuplesF (s.length + 1) s = _
      simp only [allTuplesF, hm]
  | some rest =>
      show allTuplesF (s.length + 1) s = _
      simp only [allTuplesF, hm]
      try dsimp only
      have := findTx_length s rest hm
      congr 1
      exact allTuplesF_irrel s.length rest (rest.length + 1) (by omega) (Nat.lt_succ_self _)

/-! ## Marker-search lemmas -/

theorem metaHead_text : metaHead =
    ("INSERT INTO statements (id, file_name, bank_name, account_holder, period, saved_at) VALUES (").toList := by
  decide

theorem txHead_text : txHead =
    ("INSERT INTO transactions (statement_id, date, amount, description, transaction_code, partner_name, partner_account, type, category) VALUES\n").toList := by
  decide

theorem swCI_append_long {a b p : Chars} (h : swCI (a ++ b) p) (hl : p.length ≤ a.length) :
    swCI a p := by
  induction p generalizing a with
  | nil => simp [swCI]
  | cons q ps ih =>
      cases a with
      | nil => simp at hl
      | cons c a' =>
          simp only [List.cons_append, swCI, Bool.and_eq_true] at h ⊢
          refine ⟨h.1, ih h.2 ?_⟩
          simp only [List.length_cons] at hl ⊢
          omega

theorem swCI_append_short {a b p : Chars} (h : swCI (a ++ b) p) (hl : a.length < p.length) :
    swCI b (p.drop a.length) := by
  induction a generalizing p with
  | nil => simpa using h
  | cons c a' ih =>
      cases p with
      | nil => simp at hl
      | cons q ps =>
          simp only [List.cons_append, swCI, Bool.and_eq_true] at h
          simp only [List.length_cons, List.drop_succ_cons]
          exact ih h.2 (by simp only [List.length_cons] at hl; omega)

theorem swCI_preCompat {t rest p : Chars} (h : swCI (t ++ rest) p) : preCompat t p := by
  induction t generalizing p with
  | nil => cases p <;> simp [preCompat]
  | cons c t' ih =>
      cases p with
      | nil => simp [preCompat]
      | cons q ps =>
          simp only [List.cons_append, swCI, Bool.and_eq_true] at h
          simp only [preCompat, Bool.and_eq_true]
          exact ⟨h.1, ih h.2⟩

theorem headNotIn_refutes {p rest : Chars} (h : headNotIn p rest = true) {k : Nat}
    (hk : k < p.length) : ¬ swCI rest (p.drop k) := by
  intro hsw
  cases hd : p.drop k with
  | nil =>
      have : p.length ≤ k := by
        have := List.drop_eq_nil_iff_le.mp hd
        omega
      omega
  | cons q qs =>
      rw [hd] at hsw
      cases rest with
      | nil => simp [swCI] at hsw
      | cons c rest' =>
          simp only [swCI, Bool.and_eq_true] at hsw
          have hq : q ∈ p := by
            have : q ∈ p.drop k := by rw [hd]; exact List.mem_cons_self _ _
            exact List.mem_of_mem_drop this
          simp only [headNotIn, List.all_eq_true] at h
          have := h q hq
          rw [hsw.1] at this
          simp at this

theorem segSafeB_refutes {seg p : Chars} (h : segSafeB seg p = true) :
    ∀ rest, ∀ i < seg.length, ¬ swCI (seg.drop i ++ rest) p := by
  induction seg with
  | nil => intro rest i hi; simp at hi
  | cons c t ih =>
      intro rest i hi
      cases i with
      | zero =>
          intro hsw
          simp only [segSafeB, Bool.and_eq_true, Bool.not_eq_true'] at h
          have := @swCI_preCompat (c :: t) rest p (by simpa using hsw)
          rw [h.1] at this
          simp at this
      | succ i' =>
          simp only [segSafeB, Bool.and_eq_true] at h
          simp only [List.length_cons] at hi
          simp only [List.drop_succ_cons]
          exact ih h.2 rest i' (by omega)

theorem noOccB_swCI {s p : Chars} (h : noOccB s p = true) : ¬ swCI s p := by
  cases s with
  | nil => simp only [noOccB, Bool.not_eq_true'] at h; simp [h]
  | cons c t =>
      simp only [noOccB, Bool.and_eq_true, Bool.not_eq_true'] at h
      simp [h.1]

theorem noOccB_tail {c : Char} {t p : Chars} (h : noOccB (c :: t) p = true) :
    noOccB t p = true := by
  simp only [noOccB, Bool.and_eq_true] at h
  exact h.2

theorem noOccB_refutes {seg p : Chars} (hocc : noOccB seg p = true)
    (hp : p ≠ []) :
    ∀ rest, headNotIn p rest = true → ∀ i < seg.length, ¬ swCI (seg.drop i ++ rest) p := by
  induction seg with
  | nil => intro rest _ i hi; simp at hi
  | cons c t ih =>
      intro rest hrest i hi
      cases i with
      | zero =>
          intro hsw
          simp only [List.drop_zero] at hsw
          by_cases hlen : p.length ≤ (c :: t).length
          · exact absurd (swCI_append_long hsw hlen) (noOccB_swCI hocc)
          · have hshort : (c :: t).length < p.length := by omega
            exact headNotIn_refutes hrest hshort (swCI_append_short hsw hshort)
      | succ i' =>
          simp only [List.length_cons] at hi
          simp only [List.drop_succ_cons]
          exact ih (noOccB_tail hocc) rest hrest i' (by omega)

theorem matchCI_swCI {p s r : Chars} (h : matchCI p s = some r) : swCI s p := by
  induction p generalizing s with
  | nil => cases s <;> simp [swCI]
  | cons q ps ih =>
      cases s with
      | nil => simp [matchCI] at h
      | cons c s' =>
          rw [matchCI.eq_def] at h
          by_cases hq : ciEqChar c q
          · simp only [hq, if_pos] at h
            simp only [swCI, Bool.and_eq_true]
            exact ⟨hq, ih h⟩
          · simp [hq] at h

theorem matchStmtAt_swCI {s r : Chars} (h : matchStmtAt s = some r) :
    swCI s stmtMarkerLit := by
  unfold matchStmtAt at h
  cases hm : matchCI stmtMarkerLit s with
  | none => rw [hm] at h; cases h
  | some s1 => exact matchCI_swCI hm

theorem matchTxAt_swCI {s r : Chars} (h : matchTxAt s = some r) :
    swCI s txMarkerLit := by
  unfold matchTxAt at h
  cases hm : matchCI txMarkerLit s with
  | none => rw [hm] at h; cases h
  | some s1 => exact matchCI_swCI hm

theorem findStmt_cons {c : Char} (r : Chars) :
    findStmt (c :: r) = (match matchStmtAt (c :: r) with
      | some cap => some cap
      | none => findStmt r) := rfl

theorem findTx_cons {c : Char} (r : Chars) :
    findTx (c :: r) = (match matchTxAt (c :: r) with
      | some rest => some rest
      | none => findTx r) := rfl

theorem findStmt_skip {seg rest : Chars}
    (h : ∀ i < seg.length, ¬ swCI (seg.drop i ++ rest) stmtMarkerLit) :
    findStmt (seg ++ rest) = findStmt rest := by
  induction seg with
  | nil => simp
  | cons c t ih =>
      have h0 : ¬ swCI ((c :: t) ++ rest) stmtMarkerLit := by
        have := h 0 (by simp)
        simpa using this
      rw [List.cons_append, findStmt_cons]
      cases hm : matchStmtAt (c :: (t ++ rest)) with
      | some cap => exact absurd (matchStmtAt_swCI hm) h0
      | none =>
          have hrec : ∀ i < t.length, ¬ swCI (t.drop i ++ rest) stmtMarkerLit := by
            intro i hi
            have := h (i + 1) (by simp only [List.length_cons]; omega)
            simpa using this
          exact ih hrec

theorem findTx_skip {seg rest : Chars}
    (h : ∀ i < seg.length, ¬ swCI (seg.drop i ++ rest) txMarkerLit) :
    findTx (seg ++ rest) = findTx rest := by
  induction seg with
  | nil => simp
  | cons c t ih =>
      have h0 : ¬ swCI ((c :: t) ++ rest) txMarkerLit := by
        have := h 0 (by simp)
        simpa using this
      rw [List.cons_append, findTx_cons]
      cases hm : matchTxAt (c :: (t ++ rest)) with
      | some r => exact absurd (matchTxAt_swCI hm) h0
      | none =>
          have hrec : ∀ i < t.length, ¬ swCI (t.drop i ++ rest) txMarkerLit := by
            intro i hi
            have := h (i + 1) (by simp only [List.length_cons]; omega)
            simpa using this
          exact ih hrec

theorem findStmt_skip_safe {seg rest : Chars} (h : segSafeB seg stmtMarkerLit = true) :
    findStmt (seg ++ rest) = findStmt rest :=
  findStmt_skip (segSafeB_refutes h rest)

theorem findTx_skip_safe {seg rest : Chars} (h : segSafeB seg txMarkerLit = true) :
    findTx (seg ++ rest) = findTx rest :=
  findTx_skip (segSafeB_refutes h rest)

theorem findStmt_skip_noOcc {seg rest : Chars} (h : noOccB seg stmtMarkerLit = true)
    (hr : headNotIn stmtMarkerLit rest = true) :
    findStmt (seg ++ rest) = findStmt rest :=
  findStmt_skip (noOccB_refutes h (by decide) rest hr)

theorem findTx_skip_noOcc {seg rest : Chars} (h : noOccB seg txMarkerLit = true)
    (hr : headNotIn txMarkerLit rest = true) :
    findTx (seg ++ rest) = findTx rest :=
  findTx_skip (noOccB_refutes h (by decide) rest hr)

theorem swCI_pat_append {t p q : Chars} (h : swCI t (p ++ q)) : swCI t p := by
  induction p generalizing t with
  | nil => cases t <;> simp [swCI]
  | cons x ps ih =>
      cases t with
      | nil => simp [swCI] at h
      | cons c t' =>
          simp only [List.cons_append, swCI, Bool.and_eq_true] at h ⊢
          exact ⟨h.1, ih h.2⟩

theorem noOccB_of_shorter {s p q : Chars}
    (h : noOccB s p = true) (hpq : ∀ t, swCI t q → swCI t p) : noOccB s q = true := by
  induction s with
  | nil =>
      simp only [noOccB, Bool.not_eq_true'] at h ⊢
      cases hq : swCI [] q
      · rfl
      · rw [hpq [] hq] at h; cases h
  | cons c t ih =>
      simp only [noOccB, Bool.and_eq_true, Bool.not_eq_true'] at h ⊢
      refine ⟨?_, ih h.2⟩
      cases hq : swCI (c :: t) q
      · rfl
      · rw [hpq _ hq] at h; exact h.1.symm ▸ rfl

theorem noMarker_noOcc_stmt {s : Chars} (h : noMarkerB s = true) :
    noOccB s stmtMarkerLit = true := by
  refine noOccB_of_shorter h (fun t ht => ?_)
  have : stmtMarkerLit = insertIntoLit ++ (" statements").toList := by decide
  rw [this] at ht
  exact swCI_pat_append ht

theorem noMarker_noOcc_tx {s : Chars} (h : noMarkerB s = true) :
    noOccB s txMarkerLit = true := by
  refine noOccB_of_shorter h (fun t ht => ?_)
  have : txMarkerLit = insertIntoLit ++ (" transactions").toList := by decide
  rw [this] at ht
  exact swCI_pat_append ht

theorem noOccB_append {a b p : Chars} (hp : p ≠ []) (ha : noOccB a p = true)
    (hb : noOccB b p = true) (hhead : headNotIn p b = true) :
    noOccB (a ++ b) p = true := by
  induction a with
  | nil => simpa using hb
  | cons c t ih =>
      simp only [List.cons_append, noOccB, Bool.and_eq_true, Bool.not_eq_true']
      constructor
      · cases hsw : swCI (c :: (t ++ b)) p
        · rfl
        · exfalso
          by_cases hlen : p.length ≤ (c :: t).length
          · have : swCI (c :: t) p := @swCI_append_long (c :: t) b p (by simpa using hsw) hlen
            exact absurd this (noOccB_swCI ha)
          · have hshort : (c :: t).length < p.length := by omega
            have := @swCI_append_short (c :: t) b p (by simpa using hsw) hshort
            exact headNotIn_refutes hhead hshort this
      · exact ih (noOccB_tail ha)

theorem ciEqChar_refl (c : Char) : ciEqChar c c = true := by
  simp [ciEqChar]

theorem matchCI_self : ∀ (p r : Chars), matchCI p (p ++ r) = some r := by
  intro p
  induction p with
  | nil => intro r; rfl
  | cons c ps ih =>
      intro r
      rw [List.cons_append, matchCI.eq_def]
      simp only [ciEqChar_refl, if_true]
      exact ih r

theorem swCI_escBody : ∀ (d ps : Chars), (∀ x ∈ ps, ¬ ciEqChar '\'' x = true) →
    swCI (escBody d) ps = swCI d ps := by
  intro d
  induction d with
  | nil => intro ps _; rfl
  | cons c d' ih =>
      intro ps hps
      by_cases hc : c = '\''
      · subst hc
        simp only [escBody, if_pos rfl]
        cases ps with
        | nil => rfl
        | cons x xs =>
            have hx := hps x (List.mem_cons_self _ _)
            simp only [swCI]
            rw [Bool.eq_false_iff.mpr hx]
            simp
      · simp only [escBody, if_neg hc]
        cases ps with
        | nil => rfl
        | cons x xs =>
            simp only [swCI]
            rw [ih xs (fun y hy => hps y (List.mem_cons_of_mem _ hy))]

theorem noOcc_escBody {p : Chars} (hq : ∀ x ∈ p, ¬ ciEqChar '\'' x = true) :
    ∀ {d : Chars}, noOccB d p = true → noOccB (escBody d) p = true := by
  intro d
  induction d with
  | nil => intro h; exact h
  | cons c d' ih =>
      intro h
      have hh := noOccB_tail h
      have h1 : swCI (c :: d') p = false := by
        simp only [noOccB, Bool.and_eq_true, Bool.not_eq_true'] at h
        exact h.1
      by_cases hc : c = '\''
      · subst hc
        simp only [escBody, if_pos rfl]
        have hqf : ∀ X : Chars, swCI ('\'' :: X) p = false := by
          intro X
          cases p with
          | nil => simp [swCI] at h1
          | cons x xs =>
              have hx := hq x (List.mem_cons_self _ _)
              simp only [swCI]
              rw [Bool.eq_false_iff.mpr hx]
              simp
        simp only [noOccB, Bool.and_eq_true, Bool.not_eq_true']
        exact ⟨hqf _, hqf _, ih hh⟩
      · simp only [escBody, if_neg hc]
        simp only [noOccB, Bool.and_eq_true, Bool.not_eq_true']
        refine ⟨?_, ih hh⟩
        cases p with
        | nil => simp [swCI] at h1
        | cons x xs =>
            simp only [swCI] at h1 ⊢
            rw [swCI_escBody d' xs (fun y hy => hq y (List.mem_cons_of_mem _ hy))]
            exact h1

theorem noOcc_single_notci {p : Chars} {c : Char}
    (h : ∀ x ∈ p, ¬ ciEqChar c x = true) (hp : p ≠ []) : noOccB [c] p = true := by
  cases p with
  | nil => exact absurd rfl hp
  | cons x xs =>
      simp only [noOccB, Bool.and_eq_true, Bool.not_eq_true']
      constructor
      · simp only [swCI]
        rw [Bool.eq_false_iff.mpr (h x (List.mem_cons_self _ _))]
        simp
      · simp [swCI]

theorem quote_notci_marker : ∀ x ∈ insertIntoLit, ¬ ciEqChar '\'' x = true := by decide

theorem quote_notci_stmt : ∀ x ∈ stmtMarkerLit, ¬ ciEqChar '\'' x = true := by decide

theorem quote_notci_tx : ∀ x ∈ txMarkerLit, ¬ ciEqChar '\'' x = true := by decide

/-- `noOccB` of an escaped literal, for a quote-free nonempty pattern. -/
theorem noOcc_sqlEscape_some {p s : Chars} (hq : ∀ x ∈ p, ¬ ciEqChar '\'' x = true)
    (hp : p ≠ []) (hs : noOccB s p = true) : noOccB (sqlEscape (some s)) p = true := by
  have hquote : noOccB ['\''] p = true := noOcc_single_notci hq hp
  have hbody : noOccB (escBody s) p = true := noOcc_escBody hq hs
  have happ : noOccB (escBody s ++ ['\'']) p = true := by
    refine noOccB_append hp hbody hquote ?_
    cases p with
    | nil => exact absurd rfl hp
    | cons x xs =>
        simp only [headNotIn, List.all_eq_true]
        intro d hd
        simp only [Bool.not_eq_true']
        exact Bool.eq_false_iff.mpr (hq d hd)
  show noOccB ('\'' :: (escBody s ++ ['\''])) p = true
  simp only [noOccB, Bool.and_eq_true, Bool.not_eq_true']
  refine ⟨?_, happ⟩
  cases p with
  | nil => exact absurd rfl hp
  | cons x xs =>
      simp only [swCI]
      rw [Bool.eq_false_iff.mpr (hq x (List.mem_cons_self _ _))]
      simp

/-! ## Concrete segment facts -/

set_option maxRecDepth 100000 in
theorem segSafe_hdrA1_stmt : segSafeB hdrA1 stmtMarkerLit = true := by decide

set_option maxRecDepth 100000 in
theorem segSafe_hdrA1_tx : segSafeB hdrA1 txMarkerLit = true := by decide

theorem segSafe_hdrA2_stmt : segSafeB hdrA2 stmtMarkerLit = true := by decide

theorem segSafe_hdrA2_tx : segSafeB hdrA2 txMarkerLit = true := by decide

set_option maxRecDepth 200000 in
theorem segSafe_create_stmt : segSafeB createTablesText stmtMarkerLit = true := by decide

set_option maxRecDepth 200000 in
theorem segSafe_create_tx : segSafeB createTablesText txMarkerLit = true := by decide

set_option maxRecDepth 100000 in
theorem segSafe_metaHead_tx : segSafeB metaHead txMarkerLit = true := by decide

theorem segSafe_indent_tx : segSafeB ('\n' :: ("    ").toList) txMarkerLit = true := by decide

theorem segSafe_metaSep_tx : segSafeB metaSep txMarkerLit = true := by decide

theorem segSafe_null_tx : segSafeB (sqlEscape none) txMarkerLit = true := by decide

theorem segSafe_unknown_stmt : segSafeB (("Unknown").toList) stmtMarkerLit = true := by decide

theorem segSafe_unknown_tx : segSafeB (("Unknown").toList) txMarkerLit = true := by decide

/-! ## Character-class facts for the emitted numerals -/

theorem natDecAux_digits : ∀ (fuel n : Nat), ∀ c ∈ natDecAux fuel n, isDig c = true := by
  intro fuel
  induction fuel with
  | zero => intro n c hc; simp [natDecAux] at hc
  | succ f ih =>
      intro n c hc
      rw [natDecAux] at hc
      by_cases hn : n = 0
      · simp [hn] at hc
      · simp only [hn, if_false, List.mem_append, List.mem_singleton] at hc
        rcases hc with hc | hc
        · exact ih _ c hc
        · subst hc
          have hlt : n % 10 < 10 := Nat.mod_lt _ (by norm_num)
          unfold isDig
          have h1 : (Char.ofNat (48 + n % 10)).toNat = 48 + n % 10 := by
            have hvc : 48 + n % 10 < 55296 := by omega
            unfold Char.ofNat
            rw [dif_pos (Or.inl hvc)]
            rfl
          rw [h1]
          simp only [Bool.and_eq_true, decide_eq_true_eq]
          omega

theorem natDec_digits (n : Nat) : ∀ c ∈ natDec n, isDig c = true := by
  intro c hc
  unfold natDec at hc
  by_cases hn : n = 0
  · simp only [hn, if_true, List.mem_singleton] at hc
    subst hc; decide
  · simp only [hn, if_false] at hc
    exact natDecAux_digits _ _ c hc

theorem intRepr_chars (n : Int) : ∀ c ∈ intRepr n, numOutChar c = true := by
  intro c hc
  cases n with
  | ofNat m =>
      simp only [intRepr] at hc
      have := natDec_digits m c hc
      simp [numOutChar, this]
  | negSucc m =>
      simp only [intRepr, List.mem_cons] at hc
      rcases hc with hc | hc
      · subst hc; decide
      · have := natDec_digits (m + 1) c hc
        simp [numOutChar, this]

theorem numRepr_chars (x : JsNum) : ∀ c ∈ numRepr x, numOutChar c = true := by
  intro c hc
  cases x with
  | none =>
      simp only [numRepr, List.mem_cons, List.not_mem_nil, or_false] at hc
      rcases hc with rfl | rfl | rfl <;> decide
  | some q =>
      simp only [numRepr, ratRepr] at hc
      by_cases hden : q.den = 1
      · simp only [hden, if_true] at hc
        exact intRepr_chars _ c hc
      · simp only [hden, Bool.false_eq_true, if_false] at hc
        cases hde : decExp q.den with
        | some k =>
            rw [hde] at hc
            simp only [List.mem_append, List.mem_cons] at hc
            rcases hc with (hsign | hint) | hdot
            · by_cases hneg : q.num < 0
              · simp only [hneg, if_true, List.mem_singleton] at hsign
                subst hsign; decide
              · simp only [hneg, if_false] at hsign
                simp at hsign
            · have := natDec_digits _ c hint
              simp [numOutChar, this]
            · rcases hdot with rfl | hfrac
              · decide
              · rcases hfrac with hrep | hnd
                · have := List.eq_of_mem_replicate hrep
                  subst this; decide
                · have := natDec_digits _ c hnd
                  simp [numOutChar, this]
        | none =>
            rw [hde] at hc
            simp only [List.mem_append, List.mem_cons] at hc
            rcases hc with hc | hc | hc
            · exact intRepr_chars _ c hc
            · subst hc; decide
            · have := natDec_digits _ c hc
              simp [numOutChar, this]

theorem noOcc_of_head {p0 : Char} {ps s : Chars} (h : ∀ c ∈ s, ¬ ciEqChar c p0 = true) :
    noOccB s (p0 :: ps) = true := by
  induction s with
  | nil => simp [noOccB, swCI]
  | cons c t ih =>
      simp only [noOccB, Bool.and_eq_true, Bool.not_eq_true']
      constructor
      · simp only [swCI]
        rw [Bool.eq_false_iff.mpr (h c (List.mem_cons_self _ _))]
        simp
      · exact ih (fun y hy => h y (List.mem_cons_of_mem _ hy))

theorem numOutChar_not_i {c : Char} (h : numOutChar c = true) :
    ¬ ciEqChar c 'I' = true := by
  intro hci
  simp only [ciEqChar, beq_iff_eq] at hci
  have hI : lowerCode 'I' = 105 := by decide
  rw [hI] at hci
  simp only [numOutChar, Bool.or_eq_true, decide_eq_true_eq] at h
  rcases h with ((((hd | hm) | hp) | hs) | hN) | ha
  · unfold isDig at hd
    simp only [Bool.and_eq_true, decide_eq_true_eq] at hd
    unfold lowerCode at hci
    split at hci <;> omega
  · subst hm; simp [lowerCode] at hci
  · subst hp; simp [lowerCode] at hci
  · subst hs; simp [lowerCode] at hci
  · subst hN; simp [lowerCode] at hci
  · subst ha; simp [lowerCode] at hci

theorem noOcc_numRepr_stmt (x : JsNum) : noOccB (numRepr x) stmtMarkerLit = true := by
  have : stmtMarkerLit = 'I' :: ("NSERT INTO statements").toList := by decide
  rw [this]
  exact noOcc_of_head (fun c hc => numOutChar_not_i (numRepr_chars x c hc))

theorem noOcc_numRepr_tx (x : JsNum) : noOccB (numRepr x) txMarkerLit = true := by
  have : txMarkerLit = 'I' :: ("NSERT INTO transactions").toList := by decide
  rw [this]
  exact noOcc_of_head (fun c hc => numOutChar_not_i (numRepr_chars x c hc))

theorem noOcc_intRepr_stmt (n : Int) : noOccB (intRepr n) stmtMarkerLit = true := by
  have : stmtMarkerLit = 'I' :: ("NSERT INTO statements").toList := by decide
  rw [this]
  exact noOcc_of_head (fun c hc => numOutChar_not_i (intRepr_chars n c hc))

theorem noOcc_intRepr_tx (n : Int) : noOccB (intRepr n) txMarkerLit = true := by
  have : txMarkerLit = 'I' :: ("NSERT INTO transactions").toList := by decide
  rw [this]
  exact noOcc_of_head (fun c hc => numOutChar_not_i (intRepr_chars n c hc))

/-! ## Matcher evaluation at the real statement positions -/

theorem takeWhile_append_all {p : Char → Bool} {l : Chars} (h : ∀ c ∈ l, p c = true)
    (r : Chars) : (l ++ r).takeWhile p = l ++ r.takeWhile p := by
  induction l with
  | nil => rfl
  | cons c t ih =>
      simp only [List.cons_append, List.takeWhile_cons, h c (List.mem_cons_self _ _), if_true]
      rw [ih (fun y hy => h y (List.mem_cons_of_mem _ hy))]

theorem dropWhile_append_all {p : Char → Bool} {l : Chars} (h : ∀ c ∈ l, p c = true)
    (r : Chars) : (l ++ r).dropWhile p = r.dropWhile p := by
  induction l with
  | nil => rfl
  | cons c t ih =>
      simp only [List.cons_append, List.dropWhile_cons, h c (List.mem_cons_self _ _), if_true]
      exact ih (fun y hy => h y (List.mem_cons_of_mem _ hy))

theorem takeWhile_cons_neg {p : Char → Bool} {c : Char} (h : p c = false) (r : Chars) :
    (c :: r).takeWhile p = [] := by
  simp [List.takeWhile_cons, h]

theorem dropWhile_cons_neg {p : Char → Bool} {c : Char} (h : p c = false) (r : Chars) :
    (c :: r).dropWhile p = c :: r := by
  simp [List.dropWhile_cons, h]

theorem parenGroup_exact {inner : Chars} (hne : inner ≠ [])
    (hnp : ∀ c ∈ inner, (c != ')') = true) (r : Chars) :
    parenGroup ('(' :: inner ++ ')' :: r) = some r := by
  show parenGroup ('(' :: (inner ++ ')' :: r)) = some r
  rw [parenGroup.eq_def]
  simp only [if_pos rfl]
  rw [takeWhile_append_all hnp, dropWhile_append_all hnp]
  rw [takeWhile_cons_neg (by simp), dropWhile_cons_neg (by simp)]
  simp only [List.append_nil]
  have hne' : ¬ (inner.isEmpty = true) := by
    cases inner with
    | nil => exact absurd rfl hne
    | cons a t => simp
  rw [if_neg hne']
  simp

theorem wsStar_cons_ws {c : Char} (h : isWS c = true) (r : Chars) :
    wsStar (c :: r) = wsStar r := by
  simp [wsStar, List.dropWhile_cons, h]

theorem wsStar_cons_neg {c : Char} (h : isWS c = false) (r : Chars) :
    wsStar (c :: r) = c :: r := by
  simp [wsStar, List.dropWhile_cons, h]

theorem lcAux_append {l : Chars} (hnp : ∀ c ∈ l, ¬ c = ')') :
    ∀ r : Chars, lcAux (l ++ ')' :: ';' :: r) = some (l, r) := by
  induction l with
  | nil =>
      intro r
      rw [lcAux.eq_def]
      simp
  | cons c t ih =>
      intro r
      rw [List.cons_append, lcAux.eq_def]
      simp only [if_neg (hnp c (List.mem_cons_self _ _))]
      rw [ih (fun y hy => hnp y (List.mem_cons_of_mem _ hy)) r]
      rfl

theorem lazyCap_exact {c0 : Char} {l : Chars} (hnp : ∀ c ∈ l, ¬ c = ')') (r : Chars) :
    lazyCap (c0 :: l ++ ')' :: ';' :: r) = some (c0 :: l, r) := by
  show lazyCap (c0 :: (l ++ ')' :: ';' :: r)) = some (c0 :: l, r)
  rw [lazyCap.eq_def]
  simp only []
  rw [lcAux_append hnp r]
  rfl

theorem escBody_mem {s : Chars} {c : Char} (h : c ∈ escBody s) : c = '\'' ∨ c ∈ s := by
  induction s with
  | nil => simp [escBody] at h
  | cons a t ih =>
      rw [escBody.eq_def] at h
      by_cases ha : a = '\''
      · subst ha
        simp only [eq_self_iff_true, if_true] at h
        rw [List.mem_cons, List.mem_cons] at h
        rcases h with rfl | rfl | h
        · exact Or.inl rfl
        · exact Or.inl rfl
        · rcases ih h with h | h
          · exact Or.inl h
          · exact Or.inr (List.mem_cons_of_mem _ h)
      · simp only [ha, Bool.false_eq_true, if_false, List.mem_cons] at h
        rcases h with rfl | h
        · exact Or.inr (List.mem_cons_self _ _)
        · rcases ih h with h | h
          · exact Or.inl h
          · exact Or.inr (List.mem_cons_of_mem _ h)

theorem noParen_sqlEscape {v : Option Chars} (h : optNoParen v = true) :
    ∀ c ∈ sqlEscape v, ¬ c = ')' := by
  intro c hc
  cases v with
  | none =>
      simp only [sqlEscape, List.mem_cons, List.not_mem_nil, or_false] at hc
      rcases hc with rfl | rfl | rfl | rfl <;> decide
  | some s =>
      simp only [sqlEscape, List.mem_cons, List.mem_append, List.mem_singleton,
        List.not_mem_nil, or_false] at hc
      rcases hc with rfl | hc | rfl
      · decide
      · rcases escBody_mem hc with rfl | hc
        · decide
        · simp only [optNoParen, noParenB, List.all_eq_true] at h
          have := h c hc
          simpa using this
      · decide

theorem noParen_intRepr (n : Int) : ∀ c ∈ intRepr n, ¬ c = ')' := by
  intro c hc
  have := intRepr_chars n c hc
  simp only [numOutChar, Bool.or_eq_true, decide_eq_true_eq] at this
  rcases this with ((((hd | h) | h) | h) | h) | h
  · unfold isDig at hd
    simp only [Bool.and_eq_true, decide_eq_true_eq] at hd
    intro hc'
    subst hc'
    revert hd
    decide
  all_goals (subst h; decide)

theorem metaInner_tail_noParen {sid : Chars} {data : StatementData} {nowSaved : Int}
    (hsid : noParenB sid = true)
    (hfn : optNoParen data.fileName = true) (hbn : optNoParen data.bankName = true)
    (hah : optNoParen data.accountHolder = true) (hpd : optNoParen data.period = true) :
    ∀ c ∈ (("    ").toList
      ++ sqlEscape (some sid) ++ metaSep
      ++ sqlEscape data.fileName ++ metaSep
      ++ sqlEscape data.bankName ++ metaSep
      ++ sqlEscape data.accountHolder ++ metaSep
      ++ sqlEscape data.period ++ metaSep
      ++ intRepr nowSaved ++ ['\n']), ¬ c = ')' := by
  have hsep : ∀ c ∈ metaSep, ¬ c = ')' := by decide
  have hin : ∀ c ∈ ("    ").toList, ¬ c = ')' := by decide
  have hnl : ∀ c ∈ ['\n'], ¬ c = ')' := by decide
  have hsid' : ∀ c ∈ sqlEscape (some sid), ¬ c = ')' :=
    noParen_sqlEscape (by simpa [optNoParen] using hsid)
  have h1 := noParen_sqlEscape hfn
  have h2 := noParen_sqlEscape hbn
  have h3 := noParen_sqlEscape hah
  have h4 := noParen_sqlEscape hpd
  have h5 := noParen_intRepr nowSaved
  intro c hc
  simp only [List.mem_append] at hc
  rcases hc with ((((((((((((hc | hc) | hc) | hc) | hc) | hc) | hc) | hc) | hc) | hc) | hc) | hc) | hc)
  · exact hin c hc
  · exact hsid' c hc
  · exact hsep c hc
  · exact h1 c hc
  · exact hsep c hc
  · exact h2 c hc
  · exact hsep c hc
  · exact h3 c hc
  · exact hsep c hc
  · exact h4 c hc
  · exact hsep c hc
  · exact h5 c hc
  · exact hnl c hc

theorem matchStmtAt_meta (sid : Chars) (data : StatementData) (nowSaved : Int) (tail : Chars)
    (hsid : noParenB sid = true)
    (hfn : optNoParen data.fileName = true) (hbn : optNoParen data.bankName = true)
    (hah : optNoParen data.accountHolder = true) (hpd : optNoParen data.period = true) :
    matchStmtAt (metaStmtText sid data nowSaved ++ tail)
      = some (metaInner sid data nowSaved) := by
  have hshape : metaStmtText sid data nowSaved ++ tail
      = stmtMarkerLit ++ (' ' :: '(' :: (metaColsInn ++ (')' :: ' ' :: (valuesLit
          ++ (' ' :: '(' :: (metaInner sid data nowSaved
          ++ (')' :: ';' :: '\n' :: '\n' :: tail))))))) := by
    simp only [metaStmtText, metaHead, metaCols, List.append_assoc]
    rfl
  rw [hshape]
  unfold matchStmtAt
  rw [matchCI_self]
  simp only [Option.some_bind]
  rw [wsStar_cons_ws (by decide), wsStar_cons_neg (by decide)]
  rw [show ('(' :: (metaColsInn ++ (')' :: ' ' :: (valuesLit ++ (' ' :: '(' ::
      (metaInner sid data nowSaved ++ (')' :: ';' :: '\n' :: '\n' :: tail)))))))
    = '(' :: metaColsInn ++ ')' :: (' ' :: (valuesLit ++ (' ' :: '(' ::
      (metaInner sid data nowSaved ++ (')' :: ';' :: '\n' :: '\n' :: tail))))) from by
    simp]
  rw [parenGroup_exact (by decide) (by decide)]
  simp only [Option.some_bind]
  rw [wsStar_cons_ws (by decide)]
  rw [show wsStar (valuesLit ++ (' ' :: '(' :: (metaInner sid data nowSaved
      ++ (')' :: ';' :: '\n' :: '\n' :: tail))))
    = valuesLit ++ (' ' :: '(' :: (metaInner sid data nowSaved
      ++ (')' :: ';' :: '\n' :: '\n' :: tail))) from by
    rw [show valuesLit ++ (' ' :: '(' :: (metaInner sid data nowSaved
        ++ (')' :: ';' :: '\n' :: '\n' :: tail)))
      = 'V' :: (("ALUES").toList ++ (' ' :: '(' :: (metaInner sid data nowSaved
        ++ (')' :: ';' :: '\n' :: '\n' :: tail)))) from rfl]
    exact wsStar_cons_neg (by decide) _]
  rw [matchCI_self]
  simp only [Option.some_bind]
  rw [wsStar_cons_ws (by decide), wsStar_cons_neg (by decide)]
  simp only [if_pos rfl]
  have hmi : metaInner sid data nowSaved ++ (')' :: ';' :: '\n' :: '\n' :: tail)
      = '\n' :: ((("    ").toList
          ++ sqlEscape (some sid) ++ metaSep
          ++ sqlEscape data.fileName ++ metaSep
          ++ sqlEscape data.bankName ++ metaSep
          ++ sqlEscape data.accountHolder ++ metaSep
          ++ sqlEscape data.period ++ metaSep
          ++ intRepr nowSaved ++ ['\n'])
        ++ ')' :: ';' :: ('\n' :: '\n' :: tail)) := by
    simp only [metaInner, List.append_assoc, List.cons_append, List.nil_append]
  rw [hmi]
  rw [show ('\n' :: ((("    ").toList
          ++ sqlEscape (some sid) ++ metaSep
          ++ sqlEscape data.fileName ++ metaSep
          ++ sqlEscape data.bankName ++ metaSep
          ++ sqlEscape data.accountHolder ++ metaSep
          ++ sqlEscape data.period ++ metaSep
          ++ intRepr nowSaved ++ ['\n'])
        ++ ')' :: ';' :: ('\n' :: '\n' :: tail)))
      = ('\n' :: (("    ").toList
          ++ sqlEscape (some sid) ++ metaSep
          ++ sqlEscape data.fileName ++ metaSep
          ++ sqlEscape data.bankName ++ metaSep
          ++ sqlEscape data.accountHolder ++ metaSep
          ++ sqlEscape data.period ++ metaSep
          ++ intRepr nowSaved ++ ['\n'])
        ++ ')' :: ';' :: ('\n' :: '\n' :: tail)) from by simp]
  rw [lazyCap_exact (metaInner_tail_noParen hsid hfn hbn hah hpd) _]
  simp only [Option.map_some']
  congr 1

theorem matchTxAt_tx (rest : Chars) :
    matchTxAt (txHead ++ rest) = some ('\n' :: rest) := by
  have hshape : txHead ++ rest
      = txMarkerLit ++ (' ' :: '(' :: (txColsInn ++ (')' :: ' ' :: (valuesLit
          ++ ('\n' :: rest))))) := by
    simp only [txHead, txCols, List.append_assoc]
    rfl
  rw [hshape]
  unfold matchTxAt
  rw [matchCI_self]
  simp only [Option.some_bind]
  rw [wsStar_cons_ws (by decide), wsStar_cons_neg (by decide)]
  rw [show ('(' :: (txColsInn ++ (')' :: ' ' :: (valuesLit ++ ('\n' :: rest)))))
    = '(' :: txColsInn ++ ')' :: (' ' :: (valuesLit ++ ('\n' :: rest))) from by simp]
  rw [parenGroup_exact (by decide) (by decide)]
  simp only [Option.some_bind]
  rw [wsStar_cons_ws (by decide)]
  rw [show wsStar (valuesLit ++ ('\n' :: rest)) = valuesLit ++ ('\n' :: rest) from by
    rw [show valuesLit ++ ('\n' :: rest) = 'V' :: (("ALUES").toList ++ ('\n' :: rest)) from rfl]
    exact wsStar_cons_neg (by decide) _]
  rw [matchCI_self]

/-! ## Correctness of integer printing and re-parsing -/

theorem digitsVal_append (a b : Chars) :
    digitsVal (a ++ b) = digitsVal a * 10 ^ b.length + digitsVal b := by
  have key : ∀ (l : Chars) (x : Nat),
      l.foldl (fun a c => 10 * a + (c.toNat - 48)) x
        = x * 10 ^ l.length + l.foldl (fun a c => 10 * a + (c.toNat - 48)) 0 := by
    intro l
    induction l with
    | nil => intro x; simp
    | cons c t ih =>
        intro x
        simp only [List.foldl_cons, List.length_cons]
        rw [ih (10 * x + (c.toNat - 48)), ih (10 * 0 + (c.toNat - 48))]
        ring
  unfold digitsVal
  rw [List.foldl_append, key]

theorem digitsVal_natDecAux : ∀ (fuel n : Nat), n < fuel →
    digitsVal (natDecAux fuel n) = n := by
  intro fuel
  induction fuel with
  | zero => intro n h; omega
  | succ f ih =>
      intro n h
      rw [natDecAux]
      by_cases hn : n = 0
      · simp [hn, digitsVal]
      · simp only [hn, if_false]
        rw [digitsVal_append]
        have hdiv : n / 10 < f := by omega
        rw [ih _ hdiv]
        have hc : (Char.ofNat (48 + n % 10)).toNat = 48 + n % 10 := by
          have hvc : 48 + n % 10 < 55296 := by
            have := Nat.mod_lt n (show 0 < 10 by norm_num)
            omega
          unfold Char.ofNat
          rw [dif_pos (Or.inl hvc)]
          rfl
        simp only [List.length_singleton, pow_one, digitsVal, List.foldl_cons, List.foldl_nil]
        rw [hc]
        have := Nat.div_add_mod n 10
        omega

theorem digitsVal_natDec (n : Nat) : digitsVal (natDec n) = n := by
  unfold natDec
  by_cases hn : n = 0
  · simp [hn, digitsVal]
  · simp only [hn, if_false]
    exact digitsVal_natDecAux (n + 1) n (Nat.lt_succ_self n)

theorem natDec_ne_nil (n : Nat) : natDec n ≠ [] := by
  unfold natDec
  by_cases hn : n = 0
  · simp [hn]
  · simp only [hn, if_false]
    intro hemp
    have := digitsVal_natDecAux (n + 1) n (Nat.lt_succ_self n)
    rw [hemp] at this
    simp [digitsVal] at this
    omega

theorem isWS_codes {c : Char} (h : isWS c = true) :
    c.toNat = 32 ∨ c.toNat = 9 ∨ c.toNat = 10 ∨ c.toNat = 13 ∨ c.toNat = 11 ∨ c.toNat = 12 := by
  simp only [isWS, Bool.or_eq_true, beq_iff_eq] at h
  rcases h with ((((rfl | rfl) | rfl) | rfl) | rfl) | rfl <;> simp

theorem numOutChar_not_ws {c : Char} (h : numOutChar c = true) : isWS c = false := by
  cases hw : isWS c
  · rfl
  · exfalso
    have hcode := isWS_codes hw
    simp only [numOutChar, Bool.or_eq_true, decide_eq_true_eq] at h
    rcases h with ((((hd | rfl) | rfl) | rfl) | rfl) | rfl
    · unfold isDig at hd
      simp only [Bool.and_eq_true, decide_eq_true_eq] at hd
      omega
    all_goals simp at hcode

theorem dropWhile_all_neg {p : Char → Bool} {l : Chars} (h : ∀ c ∈ l, p c = false) :
    l.dropWhile p = l := by
  cases l with
  | nil => rfl
  | cons c t =>
      rw [List.dropWhile_cons, h c (List.mem_cons_self _ _)]
      simp

theorem trim_id {s : Chars} (h : ∀ c ∈ s, isWS c = false) :
    ((s.dropWhile isWS).reverse.dropWhile isWS).reverse = s := by
  rw [dropWhile_all_neg h]
  rw [dropWhile_all_neg (fun c hc => h c (List.mem_reverse.mp hc))]
  exact List.reverse_reverse s

theorem takeWhile_all {p : Char → Bool} {l : Chars} (h : ∀ c ∈ l, p c = true) :
    l.takeWhile p = l := by
  induction l with
  | nil => rfl
  | cons c t ih =>
      rw [List.takeWhile_cons, h c (List.mem_cons_self _ _)]
      simp only [if_true]
      rw [ih (fun y hy => h y (List.mem_cons_of_mem _ hy))]

theorem dropWhile_all {p : Char → Bool} {l : Chars} (h : ∀ c ∈ l, p c = true) :
    l.dropWhile p = [] := by
  induction l with
  | nil => rfl
  | cons c t ih =>
      rw [List.dropWhile_cons, h c (List.mem_cons_self _ _)]
      simp only [if_true]
      exact ih (fun y hy => h y (List.mem_cons_of_mem _ hy))

theorem jsNumAfterSign_digits {u : Chars} (hu : u ≠ []) (h : ∀ c ∈ u, isDig c = true)
    (neg : Bool) :
    jsNumAfterSign neg u = some (mkRat (if neg then -(digitsVal u : Int) else (digitsVal u : Int)) 1) := by
  unfold jsNumAfterSign
  rw [takeWhile_all h, dropWhile_all h]
  simp only [List.isEmpty_nil, if_true]
  unfold decNum
  have hne : ¬ (u.isEmpty = true) := by
    cases u with
    | nil => exact absurd rfl hu
    | cons a t => simp
  simp only [List.isEmpty_nil, Bool.and_false, Bool.and_true, hne]
  rw [if_neg (by simp [hne])]
  simp only [List.length_nil, pow_zero, mul_one, digitsVal, List.foldl_nil, Nat.add_zero]

theorem jsNumberParse_intRepr (n : Int) : jsNumberParse (intRepr n) = some ((n : Int) : Rat) := by
  cases n with
  | ofNat m =>
      have hdig := natDec_digits m
      have hnws : ∀ c ∈ natDec m, isWS c = false := by
        intro c hc
        exact numOutChar_not_ws (by simp [numOutChar, hdig c hc])
      show jsNumberParse (natDec m) = _
      unfold jsNumberParse
      rw [trim_id hnws]
      have hne : ¬ ((natDec m).isEmpty = true) := by
        cases hd : natDec m with
        | nil => exact absurd hd (natDec_ne_nil m)
        | cons a t => simp
      rw [if_neg hne]
      have hhead : ∀ x, (natDec m).head? = some x → isDig x = true := by
        intro x hx
        cases hd : natDec m with
        | nil => rw [hd] at hx; cases hx
        | cons a t =>
            rw [hd] at hx
            cases hx
            exact hdig x (hd ▸ List.mem_cons_self _ _)
      have hnm : ¬ ((natDec m).head? = some '-') := by
        intro hx
        have := hhead _ hx
        revert this; decide
      have hnp : ¬ ((natDec m).head? = some '+') := by
        intro hx
        have := hhead _ hx
        revert this; decide
      rw [if_neg hnm, if_neg hnp]
      rw [jsNumAfterSign_digits (natDec_ne_nil m) hdig]
      simp only [if_neg (show ¬ (false = true) by simp)]
      rw [digitsVal_natDec]
      rw [Rat.mkRat_one]
      rfl
  | negSucc m =>
      show jsNumberParse ('-' :: natDec (m + 1)) = _
      have hdig := natDec_digits (m + 1)
      have hnws : ∀ c ∈ ('-' :: natDec (m + 1)), isWS c = false := by
        intro c hc
        rcases List.mem_cons.mp hc with rfl | hc
        · decide
        · exact numOutChar_not_ws (by simp [numOutChar, hdig c hc])
      unfold jsNumberParse
      rw [trim_id hnws]
      rw [if_neg (by simp)]
      rw [if_pos (by simp)]
      simp only [List.tail_cons]
      rw [jsNumAfterSign_digits (natDec_ne_nil (m + 1)) hdig]
      simp only [if_pos rfl]
      rw [digitsVal_natDec]
      rw [Rat.mkRat_one]
      norm_num

/-! ## Extraction of escaped literals and numerals -/

theorem unescape_escBody (s : Chars) : unescape (escBody s) = s := by
  induction s with
  | nil => rfl
  | cons c t ih =>
      by_cases hc : c = '\''
      · subst hc
        show unescape ('\'' :: '\'' :: escBody t) = '\'' :: t
        rw [show unescape ('\'' :: '\'' :: escBody t) = '\'' :: unescape (escBody t) from rfl, ih]
      · rw [show escBody (c :: t)
            = if c = '\'' then '\'' :: '\'' :: escBody t else c :: escBody t from rfl]
        rw [if_neg hc]
        rw [unescape.eq_def]
        simp only [hc, Bool.false_eq_true, if_false]
        cases hb : escBody t with
        | nil =>
            have ht : t = [] := by
              cases t with
              | nil => rfl
              | cons a t' =>
                  rw [escBody.eq_def] at hb
                  by_cases ha : a = '\'' <;> simp [ha] at hb
            subst ht
            rfl
        | cons b t' =>
            rw [← hb, ih]

theorem scanLit_escBody {r : Chars} (hr : r.head? ≠ some '\'') (s : Chars) :
    scanLit (escBody s ++ '\'' :: r) = some (escBody s, r) := by
  induction s with
  | nil =>
      simp only [escBody, List.nil_append]
      cases r with
      | nil => simp
      | cons c r' =>
          have hc : ¬ c = '\'' := by
            intro h
            exact hr (by simp [h])
          rw [scanLit_close _ hc]
  | cons c t ih =>
      rw [escBody.eq_def]
      by_cases hc : c = '\''
      · subst hc
        simp only [if_true, eq_self_iff_true, List.cons_append, List.append_assoc]
        rw [scanLit_esc, ih]
      · simp only [hc, Bool.false_eq_true, if_false, List.cons_append]
        rw [scanLit_cons_ne _ hc, ih]
        rfl

theorem extractValues_escSome {r : Chars} (hr : r.head? ≠ some '\'') (s : Chars) :
    extractValues (sqlEscape (some s) ++ r) = .vStr s :: extractValues r := by
  show extractValues ('\'' :: (escBody s ++ ['\'']) ++ r) = _
  rw [show ('\'' :: (escBody s ++ ['\'']) ++ r) = '\'' :: (escBody s ++ '\'' :: r) from by simp]
  rw [extractValues_quote (scanLit_escBody hr s)]
  rw [unescape_escBody]

theorem nullTokenAt_false_head {c : Char} (h : ciEqChar c 'n' = false) (r : Chars) :
    nullTokenAt (c :: r) = false := by
  cases r with
  | nil => rfl
  | cons b r2 =>
      cases r2 with
      | nil => rfl
      | cons d r3 =>
          cases r3 with
          | nil => rfl
          | cons e r4 =>
              simp only [nullTokenAt, h]
              simp

theorem numTok_none_head {c : Char} (h : (isDig c || c == '-') = false) (r : Chars) :
    numTok (c :: r) = none := by
  unfold numTok
  rw [takeWhile_cons_neg h]
  simp

theorem extractValues_skip1 {c : Char} (h : sepOK c = true) (r : Chars) :
    extractValues (c :: r) = extractValues r := by
  simp only [sepOK, Bool.and_eq_true, Bool.not_eq_true', beq_eq_false_iff_ne, ne_eq] at h
  obtain ⟨⟨hq, hn⟩, hd⟩ := h
  rw [extractValues_skip hq (by rw [nullTokenAt_false_head hn]; simp)
    (numTok_none_head hd r)]

theorem extractValues_skipAll {l : Chars} (h : ∀ c ∈ l, sepOK c = true) (r : Chars) :
    extractValues (l ++ r) = extractValues r := by
  induction l with
  | nil => rfl
  | cons c t ih =>
      rw [List.cons_append, extractValues_skip1 (h c (List.mem_cons_self _ _))]
      exact ih (fun y hy => h y (List.mem_cons_of_mem _ hy))

theorem extractValues_null_tok (r : Chars) :
    extractValues (sqlEscape none ++ r) = .vNull :: extractValues r := by
  show extractValues ('N' :: ('U' :: 'L' :: 'L' :: r)) = _
  rw [extractValues_null (by decide) (by
    show nullTokenAt ('N' :: 'U' :: 'L' :: 'L' :: r) = true
    simp [nullTokenAt]
    decide)]
  rfl

theorem intRepr_numClass (n : Int) : ∀ c ∈ intRepr n, (isDig c || c == '-') = true := by
  intro c hc
  cases n with
  | ofNat m =>
      have := natDec_digits m c hc
      simp [this]
  | negSucc m =>
      rcases List.mem_cons.mp hc with rfl | hc
      · decide
      · have := natDec_digits (m + 1) c hc
        simp [this]

theorem intRepr_ne_nil (n : Int) : intRepr n ≠ [] := by
  cases n with
  | ofNat m => exact natDec_ne_nil m
  | negSucc m => simp [intRepr]

theorem numTok_intRepr {r : Chars} (hb : numBoundary r = true) (n : Int) :
    numTok (intRepr n ++ r) = some (intRepr n, r) := by
  unfold numTok
  rw [takeWhile_append_all (intRepr_numClass n), dropWhile_append_all (intRepr_numClass n)]
  have hne2 : ¬ ((intRepr n).isEmpty = true) := by
    cases hi : intRepr n with
    | nil => exact absurd hi (intRepr_ne_nil n)
    | cons a t => simp
  cases r with
  | nil =>
      simp only [List.takeWhile_nil, List.dropWhile_nil, List.append_nil]
      rw [if_neg hne2]
      simp [fracPart]
  | cons c r' =>
      simp only [numBoundary, Bool.and_eq_true, Bool.not_eq_true'] at hb
      rw [takeWhile_cons_neg hb.1, dropWhile_cons_neg hb.1]
      simp only [List.append_nil]
      rw [if_neg hne2]
      rw [fracPart.eq_def]
      simp only [beq_eq_false_iff_ne, ne_eq] at hb
      simp only [hb.2, Bool.false_eq_true, if_false]
      simp

theorem extractValues_intRepr {r : Chars} (hb : numBoundary r = true) (n : Int) :
    extractValues (intRepr n ++ r) = .vNum (some ((n : Int) : Rat)) :: extractValues r := by
  have hcons : ∃ c t, intRepr n = c :: t := by
    cases hi : intRepr n with
    | nil => exact absurd hi (intRepr_ne_nil n)
    | cons a t => exact ⟨a, t, rfl⟩
  obtain ⟨c, t, hct⟩ := hcons
  have hcls : (isDig c || c == '-') = true := by
    apply intRepr_numClass n
    rw [hct]; exact List.mem_cons_self _ _
  have hq : ¬ c = '\'' := by
    intro h
    subst h
    revert hcls
    decide
  have hn : ciEqChar c 'n' = false := by
    cases hcl : ciEqChar c 'n'
    · rfl
    · exfalso
      simp only [Bool.or_eq_true, beq_iff_eq] at hcls
      simp only [ciEqChar, beq_iff_eq] at hcl
      have : lowerCode 'n' = 110 := by decide
      rw [this] at hcl
      rcases hcls with hd | rfl
      · unfold isDig at hd
        simp only [Bool.and_eq_true, decide_eq_true_eq] at hd
        unfold lowerCode at hcl
        split at hcl <;> omega
      · revert hcl; decide
  have htok : numTok (c :: (t ++ r)) = some (c :: t, r) := by
    have h2 := numTok_intRepr hb n
    rw [hct] at h2
    simpa using h2
  rw [hct, List.cons_append]
  rw [extractValues_num hq (by rw [nullTokenAt_false_head hn]; simp) htok]
  show Value.vNum (jsNumberParse (c :: t)) :: extractValues r = _
  rw [← hct, jsNumberParse_intRepr]

theorem extractValues_sqlEscape {r : Chars} (hr : r.head? ≠ some '\'') (v : Option Chars) :
    extractValues (sqlEscape v ++ r) = optVal v :: extractValues r := by
  cases v with
  | some s => exact extractValues_escSome hr s
  | none => exact extractValues_null_tok r

theorem extractValues_metaInner (sid : Chars) (data : StatementData) (nowSaved : Int) :
    extractValues (metaInner sid data nowSaved)
      = [.vStr sid, optVal data.fileName, optVal data.bankName,
         optVal data.accountHolder, optVal data.period,
         .vNum (some ((nowSaved : Int) : Rat))] := by
  have hms : metaSep = ',' :: '\n' :: ' ' :: ' ' :: ' ' :: ' ' :: [] := by decide
  have hne : ∀ (X : Chars), (metaSep ++ X).head? ≠ some '\'' := by
    intro X h
    rw [hms] at h
    simp at h
  have hsep : ∀ c ∈ metaSep, sepOK c = true := by decide
  have hlead : ∀ c ∈ ("    ").toList, sepOK c = true := by decide
  have h10 : sepOK '\n' = true := by decide
  have hnl : numBoundary ['\n'] = true := by decide
  unfold metaInner
  simp only [List.append_assoc, List.cons_append]
  rw [extractValues_skip1 h10, extractValues_skipAll hlead]
  rw [extractValues_sqlEscape (hne _) (some sid), extractValues_skipAll hsep]
  rw [extractValues_sqlEscape (hne _) data.fileName, extractValues_skipAll hsep]
  rw [extractValues_sqlEscape (hne _) data.bankName, extractValues_skipAll hsep]
  rw [extractValues_sqlEscape (hne _) data.accountHolder, extractValues_skipAll hsep]
  rw [extractValues_sqlEscape (hne _) data.period, extractValues_skipAll hsep]
  rw [extractValues_intRepr hnl nowSaved, extractValues_skip1 h10, extractValues_nil]
  rfl

theorem numRepr_int (n : Int) : numRepr (some ((n : Int) : Rat)) = intRepr n := by
  simp only [numRepr, ratRepr, Rat.den_intCast, Rat.num_intCast, if_true]

theorem extractValues_rowInner {r : Chars} (hr : r.head? ≠ some '\'')
    {n : Int} (sid : Chars) (tx : Transaction) (ha : tx.amount = some ((n : Int) : Rat)) :
    extractValues (rowInner sid tx ++ r)
      = [.vStr sid, .vStr tx.date, .vNum (some ((n : Int) : Rat)), .vStr tx.description,
         .vStr tx.transaction_code, .vStr tx.partner_name, .vStr tx.partner_account,
         .vStr (typeChars tx.type), optVal tx.category] ++ extractValues r := by
  have hcs : (", ").toList = [',', ' '] := by decide
  have hne : ∀ (X : Chars), ((", ").toList ++ X).head? ≠ some '\'' := by
    intro X h
    rw [hcs] at h
    simp at h
  have hsep : ∀ c ∈ (", ").toList, sepOK c = true := by decide
  have hb : ∀ (X : Chars), numBoundary ((", ").toList ++ X) = true := by
    intro X
    rw [hcs]
    rfl
  unfold rowInner
  simp only [List.append_assoc, List.cons_append]
  rw [extractValues_escSome (hne _) sid, extractValues_skipAll hsep]
  rw [extractValues_escSome (hne _) tx.date, extractValues_skipAll hsep]
  rw [ha, numRepr_int, extractValues_intRepr (hb _) n, extractValues_skipAll hsep]
  rw [extractValues_escSome (hne _) tx.description, extractValues_skipAll hsep]
  rw [extractValues_escSome (hne _) tx.transaction_code, extractValues_skipAll hsep]
  rw [extractValues_escSome (hne _) tx.partner_name, extractValues_skipAll hsep]
  rw [extractValues_escSome (hne _) tx.partner_account, extractValues_skipAll hsep]
  rw [extractValues_escSome (hne _) (typeChars tx.type), extractValues_skipAll hsep]
  rw [extractValues_sqlEscape hr tx.category]
  rfl

theorem scanRows_eq_filterMap (s : Chars) (b : Bool) (d : Int) (buf : Option Chars) :
    scanRows s b d buf = (scanTuples s b d buf).filterMap mkRowOpt := by
  induction s, b, d, buf using scanTuples.induct with
  | case1 => rfl
  | case9 rest d hd s ih =>
      have hfm : List.filterMap mkRowOpt (s :: scanTuples rest false (d - 1) none)
          = (if 9 ≤ (extractValues s).length then [mkTx (extractValues s)] else [])
            ++ List.filterMap mkRowOpt (scanTuples rest false (d - 1) none) := by
        rw [List.filterMap_cons]
        unfold mkRowOpt
        by_cases h9 : 9 ≤ (extractValues s).length
        · simp only [if_pos h9]
          rfl
        · simp only [if_neg h9]
          rfl
      rw [scanRows.eq_def, scanTuples.eq_def]
      simp_all
  | _ =>
      rw [scanRows.eq_def, scanTuples.eq_def]
      all_goals try simp_all [mkRowOpt]
      all_goals try (split <;> simp_all)

theorem txLoopF_eq_filterMap (fuel : Nat) (s : Chars) :
    txLoopF fuel s = (allTuplesF fuel s).filterMap mkRowOpt := by
  induction fuel generalizing s with
  | zero => rfl
  | succ k ih =>
      rw [txLoopF, allTuplesF]
      cases findTx s with
      | none => rfl
      | some rest =>
          simp only [List.filterMap_append, scanRows_eq_filterMap, ih]

theorem txLoop_eq_filterMap (s : Chars) :
    txLoop s = (allTuples s).filterMap mkRowOpt := by
  unfold txLoop allTuples
  exact txLoopF_eq_filterMap _ s

theorem bufm {α : Type} (buf : Option (List α)) (l1 l2 : List α) :
    (buf.map (· ++ l1)).map (· ++ l2) = buf.map (· ++ (l1 ++ l2)) := by
  cases buf <;> simp

theorem scanTuples_plain {l : Chars} (h : ∀ c ∈ l, tupPlain c = true)
    (r : Chars) (d : Int) (buf : Option Chars) :
    scanTuples (l ++ r) false d buf = scanTuples r false d (buf.map (· ++ l)) := by
  induction l generalizing buf with
  | nil => cases buf <;> simp
  | cons c t ih =>
      have hc := h c (List.mem_cons_self _ _)
      simp only [tupPlain, Bool.and_eq_true, Bool.not_eq_true', beq_eq_false_iff_ne, ne_eq] at hc
      obtain ⟨⟨⟨hq, hp⟩, hcp⟩, hs⟩ := hc
      rw [List.cons_append, scanTuples.eq_def]
      simp only [if_neg hq, if_neg hp, if_neg hcp,
        if_neg (by intro hx; exact hs hx.1 : ¬(c = ';' ∧ d = 0))]
      rw [ih (fun y hy => h y (List.mem_cons_of_mem _ hy)), bufm]
      simp

theorem scanTuples_escBody {r : Chars} (hr : r.head? ≠ some '\'')
    (x : Chars) (d : Int) (buf : Option Chars) :
    scanTuples (escBody x ++ '\'' :: r) true d buf
      = scanTuples r false d (buf.map (· ++ (escBody x ++ ['\'']))) := by
  induction x generalizing buf with
  | nil =>
      show scanTuples ('\'' :: r) true d buf = _
      rw [scanTuples.eq_def]
      simp only [if_pos rfl]
      cases r with
      | nil => cases buf <;> rfl
      | cons r0 r2 =>
          have h0 : ¬ r0 = '\'' := by
            intro he
            exact hr (by rw [he]; rfl)
          simp only [if_neg h0]
          cases buf <;> simp [escBody]
  | cons c t ih =>
      by_cases hc : c = '\''
      · subst hc
        show scanTuples ('\'' :: '\'' :: (escBody t ++ '\'' :: r)) true d buf = _
        rw [scanTuples.eq_def]
        simp only [if_pos rfl]
        rw [ih, bufm, bufm]
        cases buf <;> simp [escBody]
      · have he : escBody (c :: t) = c :: escBody t := by
          rw [escBody.eq_def]
          simp [hc]
        rw [he, List.cons_append, scanTuples.eq_def]
        simp only [if_neg hc]
        rw [ih, bufm]
        cases buf <;> simp [escBody, hc]

theorem scanTuples_lit {r : Chars} (hr : r.head? ≠ some '\'')
    (x : Chars) (d : Int) (buf : Option Chars) :
    scanTuples (sqlEscape (some x) ++ r) false d buf
      = scanTuples r false d (buf.map (· ++ sqlEscape (some x))) := by
  show scanTuples ('\'' :: (escBody x ++ ['\'']) ++ r) false d buf = _
  rw [show ('\'' :: (escBody x ++ ['\'']) ++ r) = '\'' :: (escBody x ++ '\'' :: r) from by simp]
  rw [scanTuples.eq_def]
  simp only [if_pos rfl]
  rw [scanTuples_escBody hr, bufm]
  cases buf <;> simp [sqlEscape]

theorem scanTuples_sqlEscape {r : Chars} (hr : r.head? ≠ some '\'')
    (v : Option Chars) (d : Int) (buf : Option Chars) :
    scanTuples (sqlEscape v ++ r) false d buf
      = scanTuples r false d (buf.map (· ++ sqlEscape v)) := by
  cases v with
  | some s => exact scanTuples_lit hr s d buf
  | none => exact scanTuples_plain (by decide) r d buf

theorem scanTuples_numRepr (x : JsNum) (r : Chars) (d : Int) (buf : Option Chars) :
    scanTuples (numRepr x ++ r) false d buf
      = scanTuples r false d (buf.map (· ++ numRepr x)) := by
  refine scanTuples_plain (fun c hc => ?_) r d buf
  have h := numRepr_chars x c hc
  simp only [numOutChar, Bool.or_eq_true, decide_eq_true_eq] at h
  simp only [tupPlain, Bool.and_eq_true, Bool.not_eq_true', beq_eq_false_iff_ne, ne_eq]
  rcases h with ((((hd | h1) | h1) | h1) | h1) | h1
  · refine ⟨⟨⟨?_, ?_⟩, ?_⟩, ?_⟩ <;> · intro he; subst he; simp [isDig] at hd
  all_goals subst h1; decide

theorem scanTuples_rowInner {r : Chars} (hr : r.head? ≠ some '\'')
    (sid : Chars) (tx : Transaction) (d : Int) (buf : Option Chars) :
    scanTuples (rowInner sid tx ++ r) false d buf
      = scanTuples r false d (buf.map (· ++ rowInner sid tx)) := by
  have hcs : ∀ (X : Chars), ((", ").toList ++ X).head? ≠ some '\'' := by
    intro X h
    rw [show (", ").toList = [',', ' '] from by decide] at h
    simp at h
  have hsp : ∀ c ∈ (", ").toList, tupPlain c = true := by decide
  unfold rowInner
  simp only [List.append_assoc]
  rw [scanTuples_lit (hcs _), scanTuples_plain hsp]
  rw [scanTuples_lit (hcs _), scanTuples_plain hsp]
  rw [scanTuples_numRepr, scanTuples_plain hsp]
  rw [scanTuples_lit (hcs _), scanTuples_plain hsp]
  rw [scanTuples_lit (hcs _), scanTuples_plain hsp]
  rw [scanTuples_lit (hcs _), scanTuples_plain hsp]
  rw [scanTuples_lit (hcs _), scanTuples_plain hsp]
  rw [scanTuples_lit (hcs _), scanTuples_plain hsp]
  rw [scanTuples_sqlEscape hr]
  cases buf <;> simp

theorem scanTuples_semi (r : Chars) (buf : Option Chars) :
    scanTuples (';' :: r) false 0 buf = [] := by
  rw [scanTuples.eq_def]
  dsimp only
  rw [if_neg (by decide : ¬ (';' = '\''))]
  rw [if_neg (by decide : ¬ (';' = '('))]
  rw [if_neg (by decide : ¬ (';' = ')'))]
  rw [if_pos (show ';' = ';' ∧ (0 : Int) = 0 from by decide)]

theorem scanTuples_open0 (rest : Chars) (buf : Option Chars) :
    scanTuples ('(' :: rest) false 0 buf = scanTuples rest false 1 (some []) := by
  rw [scanTuples.eq_def]
  dsimp only
  rw [if_neg (by decide : ¬ ('(' = '\''))]
  rw [if_pos (rfl : '(' = '(')]
  rw [if_pos (rfl : (0 : Int) = 0)]
  rw [show ((0 : Int) + 1) = 1 from by decide]

theorem scanTuples_close1 (rest : Chars) (b : Chars) :
    scanTuples (')' :: rest) false 1 (some b) = b :: scanTuples rest false 0 none := by
  rw [scanTuples.eq_def]
  dsimp only
  rw [if_neg (by decide : ¬ (')' = '\''))]
  rw [if_neg (by decide : ¬ (')' = '('))]
  rw [if_pos (rfl : ')' = ')')]
  rw [if_pos (by decide : ((1 : Int) - 1 = 0))]
  rw [show ((1 : Int) - 1) = 0 from by decide]

theorem scanTuples_skipc {c : Char} (h : tupPlain c = true) (rest : Chars) (d : Int) :
    scanTuples (c :: rest) false d none = scanTuples rest false d none := by
  have h2 := scanTuples_plain (show ∀ x ∈ [c], tupPlain x = true from by simpa using h)
    rest d none
  simpa using h2

theorem scanTuples_rowText (sid : Chars) (tx : Transaction) (r : Chars) :
    scanTuples (rowText sid tx ++ r) false 0 none
      = rowInner sid tx :: scanTuples r false 0 none := by
  show scanTuples ('(' :: (rowInner sid tx ++ [')']) ++ r) false 0 none = _
  rw [show ('(' :: (rowInner sid tx ++ [')']) ++ r) = '(' :: (rowInner sid tx ++ ')' :: r)
    from by simp]
  rw [scanTuples_open0, scanTuples_rowInner (by simp) sid tx]
  rw [show (Option.map (fun x => x ++ rowInner sid tx) (some ([] : Chars)))
      = some (rowInner sid tx) from by simp]
  rw [scanTuples_close1]

theorem scanTuples_rows (sid : Chars) (txs : List Transaction) (r : Chars) :
    scanTuples (joinRows (txs.map (rowText sid)) ++ ';' :: r) false 0 none
      = txs.map (rowInner sid) := by
  induction txs with
  | nil =>
      show scanTuples (';' :: r) false 0 none = []
      exact scanTuples_semi r none
  | cons tx rest ih =>
      cases rest with
      | nil =>
          show scanTuples (rowText sid tx ++ ';' :: r) false 0 none = _
          rw [scanTuples_rowText, scanTuples_semi]
          rfl
      | cons tx2 rest2 =>
          rw [show (tx :: tx2 :: rest2).map (rowText sid)
              = rowText sid tx :: (tx2 :: rest2).map (rowText sid) from rfl]
          rw [show joinRows (rowText sid tx :: (tx2 :: rest2).map (rowText sid))
              = rowText sid tx ++ ',' :: '\n' :: joinRows ((tx2 :: rest2).map (rowText sid))
            from rfl]
          rw [List.append_assoc]
          simp only [List.cons_append]
          rw [scanTuples_rowText, scanTuples_skipc (by decide), scanTuples_skipc (by decide),
            ih]
          rfl

theorem preCompat_last (c : Char) {p : Chars} (hc : ∀ x ∈ p, ¬ ciEqChar c x = true) :
    ∀ (a : Chars), preCompat (a ++ [c]) p = true → swCI (a ++ [c]) p = true := by
  induction p with
  | nil => intro a _; cases a <;> rfl
  | cons q ps ih =>
      intro a hpre
      cases a with
      | nil =>
          simp only [List.nil_append, preCompat, Bool.and_eq_true] at hpre
          exact absurd hpre.1 (hc q (List.mem_cons_self _ _))
      | cons b a2 =>
          simp only [List.cons_append, preCompat, Bool.and_eq_true] at hpre
          have h2 := ih (fun x hx => hc x (List.mem_cons_of_mem _ hx)) a2 hpre.2
          simp only [List.cons_append, swCI, Bool.and_eq_true]
          exact ⟨hpre.1, h2⟩

theorem segSafe_of_noOcc_last {p : Chars} {c : Char}
    (hc : ∀ x ∈ p, ¬ ciEqChar c x = true) :
    ∀ (a : Chars), noOccB (a ++ [c]) p = true → segSafeB (a ++ [c]) p = true := by
  intro a
  induction a with
  | nil =>
      intro h
      simp only [List.nil_append, noOccB, Bool.and_eq_true, Bool.not_eq_true'] at h
      simp only [List.nil_append, segSafeB, Bool.and_eq_true, Bool.not_eq_true']
      refine ⟨?_, trivial⟩
      cases hpre : preCompat [c] p
      · rfl
      · have := preCompat_last c hc [] (by simpa using hpre)
        simp only [List.nil_append] at this
        rw [this] at h
        exact absurd h.1 (by simp)
  | cons b a2 ih =>
      intro h
      have hh : swCI (b :: a2 ++ [c]) p = false := by
        have := h
        simp only [List.cons_append, noOccB, Bool.and_eq_true, Bool.not_eq_true'] at this
        simpa using this.1
      have ht : noOccB (a2 ++ [c]) p = true := by
        have := h
        simp only [List.cons_append, noOccB, Bool.and_eq_true, Bool.not_eq_true'] at this
        exact this.2
      simp only [List.cons_append, segSafeB, Bool.and_eq_true, Bool.not_eq_true']
      refine ⟨?_, ih ht⟩
      cases hpre : preCompat (b :: (a2 ++ [c])) p
      · rfl
      · have h3 := preCompat_last c hc (b :: a2) (by simpa using hpre)
        have h4 : swCI (b :: a2 ++ [c]) p = true := by simpa using h3
        rw [h4] at hh
        cases hh

theorem preCompat_append_false {p : Chars} :
    ∀ {t : Chars}, preCompat t p = false → ∀ (b : Chars), preCompat (t ++ b) p = false := by
  induction p with
  | nil => intro t ht; cases t <;> simp [preCompat] at ht
  | cons q ps ih =>
      intro t ht b
      cases t with
      | nil => simp [preCompat] at ht
      | cons x t2 =>
          simp only [preCompat, Bool.and_eq_false_iff] at ht
          simp only [List.cons_append, preCompat, Bool.and_eq_false_iff]
          rcases ht with h1 | h2
          · exact Or.inl h1
          · exact Or.inr (ih h2 b)

theorem segSafeB_append {p a b : Chars} (ha : segSafeB a p = true)
    (hb : segSafeB b p = true) : segSafeB (a ++ b) p = true := by
  induction a with
  | nil => simpa using hb
  | cons c t ih =>
      simp only [segSafeB, Bool.and_eq_true, Bool.not_eq_true'] at ha
      simp only [List.cons_append, segSafeB, Bool.and_eq_true, Bool.not_eq_true']
      refine ⟨?_, ih ha.2⟩
      have := preCompat_append_false ha.1 b
      simpa using this

theorem segSafe_lit {p s : Chars} (hq : ∀ x ∈ p, ¬ ciEqChar '\'' x = true)
    (hp : p ≠ []) (hs : noOccB s p = true) :
    segSafeB (sqlEscape (some s)) p = true := by
  have hocc : noOccB (sqlEscape (some s)) p = true := noOcc_sqlEscape_some hq hp hs
  have hshape : sqlEscape (some s) = ('\'' :: escBody s) ++ ['\''] := by
    simp [sqlEscape]
  rw [hshape] at hocc ⊢
  exact segSafe_of_noOcc_last hq ('\'' :: escBody s) hocc

theorem segSafe_headMiss {q : Char} {ps : Chars} :
    ∀ {seg : Chars}, (∀ c ∈ seg, ¬ ciEqChar c q = true) → segSafeB seg (q :: ps) = true := by
  intro seg
  induction seg with
  | nil => intro _; rfl
  | cons c t ih =>
      intro h
      simp only [segSafeB, Bool.and_eq_true, Bool.not_eq_true']
      refine ⟨?_, ih (fun y hy => h y (List.mem_cons_of_mem _ hy))⟩
      simp only [preCompat, Bool.and_eq_false_iff]
      exact Or.inl (by
        cases hce : ciEqChar c q
        · rfl
        · exact absurd hce (h c (List.mem_cons_self _ _)))

theorem findTx_none_safe {s : Chars} (h : segSafeB s txMarkerLit = true) :
    findTx s = none := by
  have h2 : findTx (s ++ []) = findTx [] := findTx_skip_safe h
  rw [List.append_nil] at h2
  exact h2

theorem findStmt_none_safe {s : Chars} (h : segSafeB s stmtMarkerLit = true) :
    findStmt s = none := by
  have h2 : findStmt (s ++ []) = findStmt [] := findStmt_skip_safe h
  rw [List.append_nil] at h2
  exact h2

theorem segSafe_num_tx (x : JsNum) : segSafeB (numRepr x) txMarkerLit = true := by
  have ht : txMarkerLit = 'I' :: ("NSERT INTO transactions").toList := by decide
  rw [ht]
  exact segSafe_headMiss (fun c hc => numOutChar_not_i (numRepr_chars x c hc))

theorem segSafe_intRepr_tx (n : Int) : segSafeB (intRepr n) txMarkerLit = true := by
  have ht : txMarkerLit = 'I' :: ("NSERT INTO transactions").toList := by decide
  rw [ht]
  exact segSafe_headMiss (fun c hc => numOutChar_not_i (intRepr_chars n c hc))

theorem segSafe_lit_tx {s : Chars} (hs : noMarkerB s = true) :
    segSafeB (sqlEscape (some s)) txMarkerLit = true :=
  segSafe_lit quote_notci_tx (by decide) (noMarker_noOcc_tx hs)

theorem segSafe_opt_tx {v : Option Chars} (hv : optNoMarker v = true) :
    segSafeB (sqlEscape v) txMarkerLit = true := by
  cases v with
  | none => exact segSafe_null_tx
  | some s => exact segSafe_lit_tx hv

theorem segSafe_stmtId_tx {data : StatementData} (hid : optNoMarker data.id = true)
    (nowId : Int) : segSafeB (sqlEscape (some (stmtIdOf data nowId))) txMarkerLit = true := by
  unfold stmtIdOf
  cases hd : data.id with
  | none => exact segSafe_lit quote_notci_tx (by decide) (noOcc_intRepr_tx nowId)
  | some s =>
      by_cases he : s.isEmpty
      · simp only [he, if_true]
        exact segSafe_lit quote_notci_tx (by decide) (noOcc_intRepr_tx nowId)
      · simp only [he, if_false]
        rw [hd] at hid
        exact segSafe_lit_tx hid

theorem segSafe_sep2_tx : segSafeB ((", ").toList) txMarkerLit = true := by decide

theorem segSafe_rowInner_tx {sid : Chars} {tx : Transaction}
    (hsid : segSafeB (sqlEscape (some sid)) txMarkerLit = true)
    (hdt : noMarkerB tx.date = true) (hds : noMarkerB tx.description = true)
    (htc : noMarkerB tx.transaction_code = true) (hpn : noMarkerB tx.partner_name = true)
    (hpa : noMarkerB tx.partner_account = true) (hct : optNoMarker tx.category = true) :
    segSafeB (rowInner sid tx) txMarkerLit = true := by
  unfold rowInner
  refine segSafeB_append (segSafeB_append (segSafeB_append (segSafeB_append
    (segSafeB_append (segSafeB_append (segSafeB_append (segSafeB_append
    (segSafeB_append (segSafeB_append (segSafeB_append (segSafeB_append
    (segSafeB_append (segSafeB_append (segSafeB_append (segSafeB_append
    hsid segSafe_sep2_tx) (segSafe_lit_tx hdt)) segSafe_sep2_tx)
    (segSafe_num_tx tx.amount)) segSafe_sep2_tx) (segSafe_lit_tx hds)) segSafe_sep2_tx)
    (segSafe_lit_tx htc)) segSafe_sep2_tx) (segSafe_lit_tx hpn)) segSafe_sep2_tx)
    (segSafe_lit_tx hpa)) segSafe_sep2_tx) ?_) segSafe_sep2_tx) (segSafe_opt_tx hct)
  cases htt : tx.type <;> · unfold typeChars; decide

theorem segSafe_rowText_tx {sid : Chars} {tx : Transaction}
    (h : segSafeB (rowInner sid tx) txMarkerLit = true) :
    segSafeB (rowText sid tx) txMarkerLit = true := by
  unfold rowText
  have h1 : segSafeB ['('] txMarkerLit = true := by decide
  have h2 : segSafeB [')'] txMarkerLit = true := by decide
  have := segSafeB_append h1 (segSafeB_append h h2)
  simpa using this

theorem segSafe_joinRows_tx {sid : Chars} {txs : List Transaction}
    (h : ∀ tx ∈ txs, segSafeB (rowInner sid tx) txMarkerLit = true) :
    segSafeB (joinRows (txs.map (rowText sid))) txMarkerLit = true := by
  induction txs with
  | nil => rfl
  | cons tx rest ih =>
      cases rest with
      | nil =>
          show segSafeB (rowText sid tx) txMarkerLit = true
          exact segSafe_rowText_tx (h tx (List.mem_cons_self _ _))
      | cons tx2 rest2 =>
          show segSafeB (rowText sid tx
            ++ ',' :: '\n' :: joinRows ((tx2 :: rest2).map (rowText sid))) txMarkerLit = true
          refine segSafeB_append (segSafe_rowText_tx (h tx (List.mem_cons_self _ _))) ?_
          have hsep : segSafeB [',', '\n'] txMarkerLit = true := by decide
          have hrest := ih (fun y hy => h y (List.mem_cons_of_mem _ hy))
          have := segSafeB_append hsep hrest
          simpa using this

theorem segSafe_metaInner_tx {sid : Chars} {data : StatementData} {nowSaved : Int}
    (hsid : segSafeB (sqlEscape (some sid)) txMarkerLit = true)
    (hfn : optNoMarker data.fileName = true) (hbn : optNoMarker data.bankName = true)
    (hah : optNoMarker data.accountHolder = true) (hpd : optNoMarker data.period = true) :
    segSafeB (metaInner sid data nowSaved) txMarkerLit = true := by
  unfold metaInner
  have hind : segSafeB ('\n' :: ("    ").toList) txMarkerLit = true := segSafe_indent_tx
  have hnl : segSafeB ['\n'] txMarkerLit = true := by decide
  refine segSafeB_append (segSafeB_append (segSafeB_append (segSafeB_append
    (segSafeB_append (segSafeB_append (segSafeB_append (segSafeB_append
    (segSafeB_append (segSafeB_append (segSafeB_append (segSafeB_append
    hind hsid) segSafe_metaSep_tx) (segSafe_opt_tx hfn)) segSafe_metaSep_tx)
    (segSafe_opt_tx hbn)) segSafe_metaSep_tx) (segSafe_opt_tx hah)) segSafe_metaSep_tx)
    (segSafe_opt_tx hpd)) segSafe_metaSep_tx) (segSafe_intRepr_tx nowSaved)) hnl

theorem segSafe_metaStmt_tx {sid : Chars} {data : StatementData} {nowSaved : Int}
    (h : segSafeB (metaInner sid data nowSaved) txMarkerLit = true) :
    segSafeB (metaStmtText sid data nowSaved) txMarkerLit = true := by
  unfold metaStmtText
  have ht : segSafeB ((");\n\n").toList) txMarkerLit = true := by decide
  exact segSafeB_append (segSafeB_append segSafe_metaHead_tx h) ht

theorem findTx_hit {s rest : Chars} (h : matchTxAt s = some rest) : findTx s = some rest := by
  cases s with
  | nil =>
      have h0 : matchTxAt [] = none := rfl
      rw [h0] at h
      cases h
  | cons c r =>
      rw [findTx_cons, h]

theorem findStmt_hit {s cap : Chars} (h : matchStmtAt s = some cap) :
    findStmt s = some cap := by
  cases s with
  | nil =>
      have h0 : matchStmtAt [] = none := rfl
      rw [h0] at h
      cases h
  | cons c r =>
      rw [findStmt_cons, h]

theorem headNotIn_hdrA2_tx (X : Chars) : headNotIn txMarkerLit (hdrA2 ++ X) = true := rfl

theorem headNotIn_hdrA2_stmt (X : Chars) : headNotIn stmtMarkerLit (hdrA2 ++ X) = true := rfl

theorem headNotIn_create_tx (X : Chars) :
    headNotIn txMarkerLit (createTablesText ++ X) = true := rfl

theorem headNotIn_create_stmt (X : Chars) :
    headNotIn stmtMarkerLit (createTablesText ++ X) = true := rfl

theorem noOcc_bankDisp_tx {data : StatementData} (h : optNoMarker data.bankName = true) :
    noOccB (bankDisp data) txMarkerLit = true := by
  unfold bankDisp
  cases hb : data.bankName with
  | none => decide
  | some s =>
      by_cases he : s.isEmpty
      · simp only [he, if_true]
        decide
      · simp only [he, if_false]
        rw [hb] at h
        exact noMarker_noOcc_tx h

theorem noOcc_bankDisp_stmt {data : StatementData} (h : optNoMarker data.bankName = true) :
    noOccB (bankDisp data) stmtMarkerLit = true := by
  unfold bankDisp
  cases hb : data.bankName with
  | none => decide
  | some s =>
      by_cases he : s.isEmpty
      · simp only [he, if_true]
        decide
      · simp only [he, if_false]
        rw [hb] at h
        exact noMarker_noOcc_stmt h

theorem findTx_preamble {nowIso : Chars} {data : StatementData}
    (hiso : noMarkerB nowIso = true) (hbn : optNoMarker data.bankName = true) (X : Chars) :
    findTx (preambleText nowIso data ++ X) = findTx X := by
  unfold preambleText
  simp only [List.append_assoc]
  rw [findTx_skip_safe segSafe_hdrA1_tx]
  rw [findTx_skip_noOcc (noMarker_noOcc_tx hiso) (headNotIn_hdrA2_tx _)]
  rw [findTx_skip_safe segSafe_hdrA2_tx]
  rw [findTx_skip_noOcc (noOcc_bankDisp_tx hbn) (headNotIn_create_tx _)]
  rw [findTx_skip_safe segSafe_create_tx]

theorem findStmt_preamble {nowIso : Chars} {data : StatementData}
    (hiso : noMarkerB nowIso = true) (hbn : optNoMarker data.bankName = true) (X : Chars) :
    findStmt (preambleText nowIso data ++ X) = findStmt X := by
  unfold preambleText
  simp only [List.append_assoc]
  rw [findStmt_skip_safe segSafe_hdrA1_stmt]
  rw [findStmt_skip_noOcc (noMarker_noOcc_stmt hiso) (headNotIn_hdrA2_stmt _)]
  rw [findStmt_skip_safe segSafe_hdrA2_stmt]
  rw [findStmt_skip_noOcc (noOcc_bankDisp_stmt hbn) (headNotIn_create_stmt _)]
  rw [findStmt_skip_safe segSafe_create_stmt]

theorem strOr_vStr (s : Chars) : strOr (.vStr s) [] = s := by
  unfold strOr jsTruthy jsToString
  by_cases he : s.isEmpty
  · rw [List.isEmpty_iff] at he
    subst he
    rfl
  · simp [he]

theorem numOr_int {x : JsNum} {n : Int} (ha : x = some ((n : Int) : Rat)) :
    numOr (.vNum x) (some 0) = x := by
  subst ha
  unfold numOr jsTruthy jsToNumber
  by_cases h0 : (n : Rat) = 0
  · rw [h0]
    simp
  · simp [bne_iff_ne, h0]

theorem metaOK_parts {data : StatementData} (h : metaFieldsOK data = true) :
    optNoMarker data.id = true ∧ optNoParen data.id = true
    ∧ optNoMarker data.fileName = true ∧ optNoParen data.fileName = true
    ∧ optNoMarker data.bankName = true ∧ optNoParen data.bankName = true
    ∧ optNoMarker data.accountHolder = true ∧ optNoParen data.accountHolder = true
    ∧ optNoMarker data.period = true ∧ optNoParen data.period = true := by
  simp only [metaFieldsOK, Bool.and_eq_true] at h
  tauto

theorem txOK_parts {tx : Transaction} (h : txFieldsOK tx = true) :
    noMarkerB tx.date = true ∧ noMarkerB tx.description = true
    ∧ noMarkerB tx.transaction_code = true ∧ noMarkerB tx.partner_name = true
    ∧ noMarkerB tx.partner_account = true ∧ optNoMarker tx.category = true := by
  simp only [txFieldsOK, Bool.and_eq_true] at h
  tauto

theorem txLoopF_none {s : Chars} (h : findTx s = none) :
    ∀ fuel, txLoopF fuel s = [] := by
  intro fuel
  cases fuel with
  | zero => rfl
  | succ k =>
      rw [txLoopF, h]

theorem noParenB_of {s : Chars} (h : ∀ c ∈ s, ¬ c = ')') : noParenB s = true := by
  unfold noParenB
  rw [List.all_eq_true]
  intro c hc
  simpa using h c hc

theorem noParen_stmtId {data : StatementData} (h : optNoParen data.id = true)
    (nowId : Int) : noParenB (stmtIdOf data nowId) = true := by
  unfold stmtIdOf
  cases hd : data.id with
  | none => exact noParenB_of (noParen_intRepr nowId)
  | some s =>
      by_cases he : s.isEmpty
      · simp only [he, if_true]
        exact noParenB_of (noParen_intRepr nowId)
      · simp only [he, if_false]
        rw [hd] at h
        exact h

theorem mkTx_row {sid : Chars} {tx : Transaction} {n : Int}
    (ha : tx.amount = some ((n : Int) : Rat)) :
    mkTx (extractValues (rowInner sid tx)) = roundTx tx := by
  have hev : extractValues (rowInner sid tx)
      = [.vStr sid, .vStr tx.date, .vNum (some ((n : Int) : Rat)), .vStr tx.description,
         .vStr tx.transaction_code, .vStr tx.partner_name, .vStr tx.partner_account,
         .vStr (typeChars tx.type), optVal tx.category] ++ extractValues [] := by
    rw [show rowInner sid tx = rowInner sid tx ++ [] from by simp]
    exact extractValues_rowInner (by simp) sid tx ha
  rw [extractValues_nil, List.append_nil] at hev
  rw [hev]
  unfold mkTx roundTx valAt
  simp only [List.getD]
  simp only [Transaction.mk.injEq]
  refine ⟨?_, ?_, ?_, ?_, ?_, ?_, ?_, ?_⟩
  · exact strOr_vStr tx.date
  · rw [← ha]
    exact numOr_int ha
  · exact strOr_vStr tx.description
  · exact strOr_vStr tx.transaction_code
  · exact strOr_vStr tx.partner_name
  · exact strOr_vStr tx.partner_account
  · cases tx.type <;> simp +decide [valAt, jsToString, typeChars]
  · cases hc : tx.category with
    | none => rfl
    | some s =>
        simp [strOr_vStr]
        rw [show optVal (some s) = Value.vStr s from rfl, strOr_vStr]

theorem findStmt_gen {nowIso : Chars} {data : StatementData} (nowId nowSaved : Int)
    (hiso : noMarkerB nowIso = true) (hmf : metaFieldsOK data = true) :
    findStmt (generateSQL nowIso nowId nowSaved data)
      = some (metaInner (stmtIdOf data nowId) data nowSaved) := by
  obtain ⟨hidM, hidP, hfnM, hfnP, hbnM, hbnP, hahM, hahP, hpdM, hpdP⟩ := metaOK_parts hmf
  unfold generateSQL
  rw [List.append_assoc, findStmt_preamble hiso hbnM]
  exact findStmt_hit (matchStmtAt_meta _ data nowSaved _
    (noParen_stmtId hidP nowId) hfnP hbnP hahP hpdP)

theorem segSafe_tx_block {data : StatementData} {nowId : Int}
    (hid : optNoMarker data.id = true)
    (htx : ∀ tx ∈ data.transactions, txFieldsOK tx = true) :
    segSafeB ('\n' :: (joinRows (data.transactions.map (rowText (stmtIdOf data nowId)))
      ++ (";\n").toList)) txMarkerLit = true := by
  have hnl : segSafeB ['\n'] txMarkerLit = true := by decide
  have hsc : segSafeB ((";\n").toList) txMarkerLit = true := by decide
  have hrows : segSafeB (joinRows (data.transactions.map (rowText (stmtIdOf data nowId))))
      txMarkerLit = true := by
    refine segSafe_joinRows_tx (fun tx hmem => ?_)
    obtain ⟨h1, h2, h3, h4, h5, h6⟩ := txOK_parts (htx tx hmem)
    exact segSafe_rowInner_tx (segSafe_stmtId_tx hid nowId) h1 h2 h3 h4 h5 h6
  have := segSafeB_append hnl (segSafeB_append hrows hsc)
  simpa using this

theorem findTx_gen {nowIso : Chars} {data : StatementData} (nowId nowSaved : Int)
    (hiso : noMarkerB nowIso = true) (hid : optNoMarker data.id = true)
    (hbn : optNoMarker data.bankName = true)
    (hfn : optNoMarker data.fileName = true) (hah : optNoMarker data.accountHolder = true)
    (hpd : optNoMarker data.period = true)
    (hne : data.transactions.isEmpty = false) :
    findTx (generateSQL nowIso nowId nowSaved data)
      = some ('\n' :: (joinRows (data.transactions.map (rowText (stmtIdOf data nowId)))
          ++ (";\n").toList)) := by
  unfold generateSQL
  rw [hne]
  simp only [if_false, List.append_assoc]
  rw [findTx_preamble hiso hbn]
  rw [findTx_skip_safe (segSafe_metaStmt_tx
    (segSafe_metaInner_tx (segSafe_stmtId_tx hid nowId) hfn hbn hah hpd))]
  unfold txStmtText
  rw [List.append_assoc]
  exact findTx_hit (matchTxAt_tx _)

theorem scanRows_block {sid : Chars} {txs : List Transaction}
    (hamt : ∀ tx ∈ txs, ∃ n : Int, tx.amount = some ((n : Int) : Rat)) :
    scanRows ('\n' :: (joinRows (txs.map (rowText sid)) ++ (";\n").toList)) false 0 none
      = txs.map roundTx := by
  rw [scanRows_eq_filterMap]
  have hsh : ('\n' :: (joinRows (txs.map (rowText sid)) ++ (";\n").toList))
      = '\n' :: (joinRows (txs.map (rowText sid)) ++ ';' :: ['\n']) := rfl
  rw [hsh, scanTuples_skipc (by decide), scanTuples_rows]
  clear hsh
  induction txs with
  | nil => rfl
  | cons tx rest ih =>
      obtain ⟨n, hn⟩ := hamt tx (List.mem_cons_self _ _)
      have hrow : mkRowOpt (rowInner sid tx) = some (roundTx tx) := by
        unfold mkRowOpt
        have hev : extractValues (rowInner sid tx)
            = [.vStr sid, .vStr tx.date, .vNum (some ((n : Int) : Rat)), .vStr tx.description,
               .vStr tx.transaction_code, .vStr tx.partner_name, .vStr tx.partner_account,
               .vStr (typeChars tx.type), optVal tx.category] ++ extractValues [] := by
          rw [show rowInner sid tx = rowInner sid tx ++ [] from by simp]
          exact extractValues_rowInner (by simp) sid tx hn
        rw [extractValues_nil, List.append_nil] at hev
        rw [if_pos (by rw [hev]; simp), mkTx_row hn]
      simp only [List.map_cons, List.filterMap_cons, hrow]
      rw [ih (fun y hy => hamt y (List.mem_cons_of_mem _ hy))]

theorem txLoop_gen {nowIso : Chars} {data : StatementData} (nowId nowSaved : Int)
    (hiso : noMarkerB nowIso = true) (hmf : metaFieldsOK data = true)
    (htx : ∀ tx ∈ data.transactions, txFieldsOK tx = true)
    (hamt : ∀ tx ∈ data.transactions, ∃ n : Int, tx.amount = some ((n : Int) : Rat)) :
    txLoop (generateSQL nowIso nowId nowSaved data) = data.transactions.map roundTx := by
  obtain ⟨hidM, hidP, hfnM, hfnP, hbnM, hbnP, hahM, hahP, hpdM, hpdP⟩ := metaOK_parts hmf
  by_cases hemp : data.transactions.isEmpty
  · have hTnil : data.transactions = [] := by
      rwa [List.isEmpty_iff] at hemp
    have hdoc : generateSQL nowIso nowId nowSaved data
        = preambleText nowIso data
          ++ metaStmtText (stmtIdOf data nowId) data nowSaved := by
      unfold generateSQL
      rw [hTnil]
      simp
    have hnone : findTx (generateSQL nowIso nowId nowSaved data) = none := by
      rw [hdoc, findTx_preamble hiso hbnM]
      exact findTx_none_safe (segSafe_metaStmt_tx
        (segSafe_metaInner_tx (segSafe_stmtId_tx hidM nowId) hfnM hbnM hahM hpdM))
    rw [hTnil]
    exact txLoopF_none hnone _
  · have hne : data.transactions.isEmpty = false := by
      cases h : data.transactions.isEmpty
      · rfl
      · exact absurd h hemp
    have hfind := findTx_gen nowId nowSaved hiso hidM hbnM hfnM hahM hpdM hne
    unfold txLoop
    rw [txLoopF, hfind]
    dsimp only
    rw [scanRows_block hamt]
    rw [txLoopF_none (findTx_none_safe (segSafe_tx_block hidM htx))]
    rw [List.append_nil]

theorem parseSQL_gen {nowIso : Chars} {data : StatementData} (nowId nowSaved nowDec : Int)
    (hiso : noMarkerB nowIso = true) (hmf : metaFieldsOK data = true)
    (htx : ∀ tx ∈ data.transactions, txFieldsOK tx = true)
    (hamt : ∀ tx ∈ data.transactions, ∃ n : Int, tx.amount = some ((n : Int) : Rat)) :
    parseSQL nowDec (generateSQL nowIso nowId nowSaved data)
      = .ok { id := some (stmtIdOf data nowId)
            , fileName := some (strOr (optVal data.fileName) (("Recovered_Statement").toList))
            , bankName := some (strOr (optVal data.bankName) [])
            , accountHolder := some (strOr (optVal data.accountHolder) [])
            , period := some (strOr (optVal data.period) [])
            , savedAt := some (numOr (.vNum (some ((nowSaved : Int) : Rat)))
                (some ((nowDec : Int) : Rat)))
            , transactions := data.transactions.map roundTx } := by
  unfold parseSQL
  rw [findStmt_gen nowId nowSaved hiso hmf]
  dsimp only
  rw [extractValues_metaInner]
  rw [if_neg (by simp)]
  rw [txLoop_gen nowId nowSaved hiso hmf htx hamt]
  simp only [valAt, List.getD, List.get?, Option.getD]
  rw [strOr_vStr]

theorem roundTx_id {tx : Transaction} (h : tx.category.isSome = true) : roundTx tx = tx := by
  unfold roundTx
  cases hc : tx.category with
  | none => rw [hc] at h; cases h
  | some s =>
      simp only [hc, Option.getD]
      cases tx
      simp only at hc
      simp [hc]

theorem map_roundTx_id {l : List Transaction} (h : ∀ tx ∈ l, tx.category.isSome = true) :
    l.map roundTx = l := by
  induction l with
  | nil => rfl
  | cons tx rest ih =>
      rw [List.map_cons, roundTx_id (h tx (List.mem_cons_self _ _)),
        ih (fun y hy => h y (List.mem_cons_of_mem _ hy))]

theorem int_of_amountB {tx : Transaction} (h : intAmountB tx = true) :
    ∃ n : Int, tx.amount = some ((n : Int) : Rat) := by
  unfold intAmountB at h
  cases ha : tx.amount with
  | none => rw [ha] at h; cases h
  | some q =>
      rw [ha] at h
      simp only [beq_iff_eq] at h
      refine ⟨q.num, ?_⟩
      rw [show ((q.num : Int) : Rat) = q from ?_]
      exact Rat.num_div_den q ▸ by
        rw [show ((q.num : Int) : Rat) = (q.num : Rat) from rfl]
        rw [show (q : Rat) = (q.num : Rat) / (q.den : Rat) from (Rat.num_div_den q).symm]
        rw [h]
        simp

theorem txLoopF_steps {s r1 r2 : Chars} (h1 : findTx s = some r1)
    (h2 : findTx r1 = some r2) (h3 : findTx r2 = none) (k : Nat) :
    txLoopF (k + 2) s = scanRows r1 false 0 none ++ scanRows r2 false 0 none := by
  rw [show k + 2 = (k + 1) + 1 from rfl, txLoopF, h1]
  dsimp only
  rw [txLoopF, h2]
  dsimp only
  rw [txLoopF_none h3, List.append_nil]

theorem segSafe_txStmtTail_tx {sid : Chars} {txs : List Transaction}
    (hsid : noMarkerB sid = true) (htx : ∀ tx ∈ txs, txFieldsOK tx = true) :
    segSafeB ('\n' :: (joinRows (txs.map (rowText sid)) ++ (";\n").toList))
      txMarkerLit = true := by
  have hnl : segSafeB ['\n'] txMarkerLit = true := by decide
  have hsc : segSafeB ((";\n").toList) txMarkerLit = true := by decide
  have hrows : segSafeB (joinRows (txs.map (rowText sid))) txMarkerLit = true := by
    refine segSafe_joinRows_tx (fun tx hmem => ?_)
    obtain ⟨h1, h2, h3, h4, h5, h6⟩ := txOK_parts (htx tx hmem)
    exact segSafe_rowInner_tx (segSafe_lit_tx hsid) h1 h2 h3 h4 h5 h6
  have := segSafeB_append hnl (segSafeB_append hrows hsc)
  simpa using this

theorem scanRows_stmtBlock {sid : Chars} {txs : List Transaction} (X : Chars)
    (hamt : ∀ tx ∈ txs, ∃ n : Int, tx.amount = some ((n : Int) : Rat)) :
    scanRows ('\n' :: ((joinRows (txs.map (rowText sid)) ++ (";\n").toList) ++ X)) false 0 none
      = txs.map roundTx := by
  rw [scanRows_eq_filterMap]
  have hsh : ('\n' :: ((joinRows (txs.map (rowText sid)) ++ (";\n").toList) ++ X))
      = '\n' :: (joinRows (txs.map (rowText sid)) ++ ';' :: ('\n' :: X)) := by
    simp [List.append_assoc]
  rw [hsh, scanTuples_skipc (by decide), scanTuples_rows]
  clear hsh
  induction txs with
  | nil => rfl
  | cons tx rest ih =>
      obtain ⟨n, hn⟩ := hamt tx (List.mem_cons_self _ _)
      have hrow : mkRowOpt (rowInner sid tx) = some (roundTx tx) := by
        unfold mkRowOpt
        have hev : extractValues (rowInner sid tx)
            = [.vStr sid, .vStr tx.date, .vNum (some ((n : Int) : Rat)), .vStr tx.description,
               .vStr tx.transaction_code, .vStr tx.partner_name, .vStr tx.partner_account,
               .vStr (typeChars tx.type), optVal tx.category] ++ extractValues [] := by
          rw [show rowInner sid tx = rowInner sid tx ++ [] from by simp]
          exact extractValues_rowInner (by simp) sid tx hn
        rw [extractValues_nil, List.append_nil] at hev
        rw [if_pos (by rw [hev]; simp), mkTx_row hn]
      simp only [List.map_cons, List.filterMap_cons, hrow]
      rw [ih (fun y hy => hamt y (List.mem_cons_of_mem _ hy))]

theorem metaStmtText_ne_nil (sid : Chars) (data : StatementData) (nowSaved : Int) :
    metaStmtText sid data nowSaved ≠ [] := by
  unfold metaStmtText metaHead
  intro h
  have := congrArg List.length h
  simp [stmtMarkerLit] at this

theorem txLoop_concat {dmeta : StatementData} {sid0 sid1 sid2 : Chars}
    {txs1 txs2 : List Transaction} (nowSaved : Int)
    (hs0 : noMarkerB sid0 = true)
    (hmf : metaFieldsOK dmeta = true)
    (hs1 : noMarkerB sid1 = true) (hs2 : noMarkerB sid2 = true)
    (htx1 : ∀ tx ∈ txs1, txFieldsOK tx = true) (htx2 : ∀ tx ∈ txs2, txFieldsOK tx = true)
    (ham1 : ∀ tx ∈ txs1, ∃ n : Int, tx.amount = some ((n : Int) : Rat))
    (ham2 : ∀ tx ∈ txs2, ∃ n : Int, tx.amount = some ((n : Int) : Rat)) :
    txLoop (metaStmtText sid0 dmeta nowSaved
        ++ (txStmtText sid1 txs1 ++ txStmtText sid2 txs2))
      = txs1.map roundTx ++ txs2.map roundTx := by
  obtain ⟨hidM, hidP, hfnM, hfnP, hbnM, hbnP, hahM, hahP, hpdM, hpdP⟩ := metaOK_parts hmf
  have hT1 : txStmtText sid1 txs1 ++ txStmtText sid2 txs2
      = txHead ++ ((joinRows (txs1.map (rowText sid1)) ++ (";\n").toList)
          ++ txStmtText sid2 txs2) := by
    unfold txStmtText
    simp [List.append_assoc]
  have h1 : findTx (metaStmtText sid0 dmeta nowSaved
      ++ (txStmtText sid1 txs1 ++ txStmtText sid2 txs2))
      = some ('\n' :: ((joinRows (txs1.map (rowText sid1)) ++ (";\n").toList)
          ++ txStmtText sid2 txs2)) := by
    rw [findTx_skip_safe (segSafe_metaStmt_tx
      (segSafe_metaInner_tx (segSafe_lit_tx hs0) hfnM hbnM hahM hpdM))]
    rw [hT1]
    exact findTx_hit (matchTxAt_tx _)
  have hT2 : txStmtText sid2 txs2
      = txHead ++ (joinRows (txs2.map (rowText sid2)) ++ (";\n").toList) := by
    unfold txStmtText
    simp [List.append_assoc]
  have h2 : findTx ('\n' :: ((joinRows (txs1.map (rowText sid1)) ++ (";\n").toList)
      ++ txStmtText sid2 txs2))
      = some ('\n' :: (joinRows (txs2.map (rowText sid2)) ++ (";\n").toList)) := by
    rw [show ('\n' :: ((joinRows (txs1.map (rowText sid1)) ++ (";\n").toList)
        ++ txStmtText sid2 txs2))
        = ('\n' :: (joinRows (txs1.map (rowText sid1)) ++ (";\n").toList))
          ++ txStmtText sid2 txs2 from by simp]
    rw [findTx_skip_safe (segSafe_txStmtTail_tx hs1 htx1)]
    rw [hT2]
    have := findTx_hit (matchTxAt_tx (joinRows (txs2.map (rowText sid2)) ++ (";\n").toList))
    simpa using this
  have h3 : findTx ('\n' :: (joinRows (txs2.map (rowText sid2)) ++ (";\n").toList)) = none :=
    findTx_none_safe (segSafe_txStmtTail_tx hs2 htx2)
  have hlen : 1 ≤ (metaStmtText sid0 dmeta nowSaved
      ++ (txStmtText sid1 txs1 ++ txStmtText sid2 txs2)).length := by
    rw [List.length_append]
    have := List.length_pos.mpr (metaStmtText_ne_nil sid0 dmeta nowSaved)
    omega
  obtain ⟨k, hk⟩ : ∃ k, (metaStmtText sid0 dmeta nowSaved
      ++ (txStmtText sid1 txs1 ++ txStmtText sid2 txs2)).length = k + 1 :=
    ⟨(metaStmtText sid0 dmeta nowSaved
      ++ (txStmtText sid1 txs1 ++ txStmtText sid2 txs2)).length - 1, by omega⟩
  unfold txLoop
  rw [hk, txLoopF_steps h1 h2 h3]
  rw [scanRows_stmtBlock (txStmtText sid2 txs2) ham1]
  have hr2 : scanRows ('\n' :: (joinRows (txs2.map (rowText sid2)) ++ (";\n").toList))
      false 0 none = txs2.map roundTx := by
    have := @scanRows_stmtBlock sid2 txs2 ([] : Chars) ham2
    rw [List.append_nil] at this
    exact this
  rw [hr2]

theorem parseSQL_concat {dmeta : StatementData} {sid0 sid1 sid2 : Chars}
    {txs1 txs2 : List Transaction} (nowSaved nowDec : Int)
    (hs0 : noMarkerB sid0 = true) (hp0 : noParenB sid0 = true)
    (hmf : metaFieldsOK dmeta = true)
    (hs1 : noMarkerB sid1 = true) (hs2 : noMarkerB sid2 = true)
    (htx1 : ∀ tx ∈ txs1, txFieldsOK tx = true) (htx2 : ∀ tx ∈ txs2, txFieldsOK tx = true)
    (ham1 : ∀ tx ∈ txs1, ∃ n : Int, tx.amount = some ((n : Int) : Rat))
    (ham2 : ∀ tx ∈ txs2, ∃ n : Int, tx.amount = some ((n : Int) : Rat)) :
    parseSQL nowDec (metaStmtText sid0 dmeta nowSaved
        ++ (txStmtText sid1 txs1 ++ txStmtText sid2 txs2))
      = .ok { id := some sid0
            , fileName := some (strOr (optVal dmeta.fileName) (("Recovered_Statement").toList))
            , bankName := some (strOr (optVal dmeta.bankName) [])
            , accountHolder := some (strOr (optVal dmeta.accountHolder) [])
            , period := some (strOr (optVal dmeta.period) [])
            , savedAt := some (numOr (.vNum (some ((nowSaved : Int) : Rat)))
                (some ((nowDec : Int) : Rat)))
            , transactions := txs1.map roundTx ++ txs2.map roundTx } := by
  obtain ⟨hidM, hidP, hfnM, hfnP, hbnM, hbnP, hahM, hahP, hpdM, hpdP⟩ := metaOK_parts hmf
  unfold parseSQL
  rw [findStmt_hit (matchStmtAt_meta sid0 dmeta nowSaved _ hp0 hfnP hbnP hahP hpdP)]
  dsimp only
  rw [extractValues_metaInner]
  rw [if_neg (by simp)]
  rw [txLoop_concat nowSaved hs0 hmf hs1 hs2 htx1 htx2 ham1 ham2]
  simp only [valAt, List.getD, List.get?, Option.getD]
  rw [strOr_vStr]

theorem mem_takeWhile_pred {p : Char → Bool} : ∀ {l : Chars} {c : Char},
    c ∈ l.takeWhile p → p c = true := by
  intro l
  induction l with
  | nil => intro c hc; simp at hc
  | cons a t ih =>
      intro c hc
      rw [List.takeWhile_cons] at hc
      by_cases hpa : p a = true
      · rw [if_pos hpa] at hc
        rcases List.mem_cons.mp hc with rfl | hc2
        · exact hpa
        · exact ih hc2
      · rw [if_neg hpa] at hc
        simp at hc

theorem numTok_shape {s t r : Chars} (h : numTok s = some (t, r)) :
    codeTokenB t = true ∧ s = t ++ r := by
  simp only [numTok] at h
  by_cases hcore : (s.takeWhile (fun c => isDig c || c == '-')).isEmpty
  · rw [if_pos hcore] at h
    cases h
  · rw [if_neg hcore] at h
    simp only [Option.some.injEq, Prod.mk.injEq] at h
    obtain ⟨ht, hr⟩ := h
    have hcoreall : ∀ c ∈ s.takeWhile (fun c => isDig c || c == '-'),
        (isDig c || c == '-') = true := fun c hc => mem_takeWhile_pred hc
    have hsplit : s = s.takeWhile (fun c => isDig c || c == '-')
        ++ s.dropWhile (fun c => isDig c || c == '-') :=
      (List.takeWhile_append_dropWhile _ _).symm
    cases hu : s.dropWhile (fun c => isDig c || c == '-') with
    | nil =>
        rw [hu] at ht hr
        simp only [fracPart] at ht hr
        subst ht
        refine ⟨?_, ?_⟩
        · unfold codeTokenB
          rw [List.append_nil, takeWhile_all hcoreall, dropWhile_all hcoreall]
          simp [hcore]
        · rw [← hr, List.append_nil, List.append_nil]
          conv_lhs => rw [hsplit, hu]
          rw [List.append_nil]
    | cons c u2 =>
        rw [hu] at ht hr
        by_cases hdot : c = '.'
        · subst hdot
          by_cases hfd : (u2.takeWhile isDig).isEmpty
          · rw [show fracPart ('.' :: u2) = ([], '.' :: u2) from by
                simp [fracPart, hfd]] at ht hr
            subst ht
            refine ⟨?_, ?_⟩
            · unfold codeTokenB
              rw [List.append_nil, takeWhile_all hcoreall, dropWhile_all hcoreall]
              simp [hcore]
            · rw [← hr, List.append_nil]
              conv_lhs => rw [hsplit, hu]
          · rw [show fracPart ('.' :: u2)
                  = ('.' :: u2.takeWhile isDig, u2.dropWhile isDig) from by
                simp [fracPart, hfd]] at ht hr
            subst ht
            have hfdall : (u2.takeWhile isDig).all isDig = true := by
              rw [List.all_eq_true]
              intro c hc
              exact mem_takeWhile_pred hc
            refine ⟨?_, ?_⟩
            · unfold codeTokenB
              rw [takeWhile_append_all hcoreall, dropWhile_append_all hcoreall]
              rw [takeWhile_cons_neg (by decide), dropWhile_cons_neg (by decide)]
              simp [hcore, hfd, hfdall]
            · rw [← hr]
              conv_lhs => rw [hsplit, hu]
              simp only [List.append_assoc, List.cons_append, List.nil_append,
                List.append_cancel_left_eq, List.cons.injEq, true_and]
              rw [List.takeWhile_append_dropWhile]
        · rw [show fracPart (c :: u2) = ([], c :: u2) from by
              rw [fracPart.eq_def]
              simp [hdot]] at ht hr
          subst ht
          refine ⟨?_, ?_⟩
          · unfold codeTokenB
            rw [List.append_nil, takeWhile_all hcoreall, dropWhile_all hcoreall]
            simp [hcore]
          · rw [← hr, List.append_nil]
            conv_lhs => rw [hsplit, hu]

theorem codeTokenB_of_split {pre v : Chars}
    (hpre : ∀ c ∈ pre, (isDig c || c == '-') = true)
    (hne : ((pre ++ v.takeWhile isDig).isEmpty) = false)
    (hrest : (v.dropWhile isDig).isEmpty = true
      ∨ (((v.dropWhile isDig).head? == some '.') = true
        ∧ (((v.dropWhile isDig).drop 1).isEmpty) = false
        ∧ ((v.dropWhile isDig).drop 1).all isDig = true)) :
    codeTokenB (pre ++ v) = true := by
  have hdsall : ∀ c ∈ pre ++ v.takeWhile isDig, (isDig c || c == '-') = true := by
    intro c hc
    rcases List.mem_append.mp hc with hc1 | hc2
    · exact hpre c hc1
    · rw [mem_takeWhile_pred hc2]
      simp
  have hv : pre ++ v = (pre ++ v.takeWhile isDig) ++ v.dropWhile isDig := by
    rw [List.append_assoc, List.takeWhile_append_dropWhile]
  rcases hrest with hnilr | ⟨hhd, hw1, hw2⟩
  · rw [List.isEmpty_iff] at hnilr
    unfold codeTokenB
    rw [hv, hnilr, List.append_nil, takeWhile_all hdsall, dropWhile_all hdsall]
    simp [hne]
  · cases hrc : v.dropWhile isDig with
    | nil => rw [hrc] at hhd; simp at hhd
    | cons rc w =>
        rw [hrc] at hhd hw1 hw2
        have hrcdot : rc = '.' := by
          simp only [List.head?, beq_iff_eq, Option.some.injEq] at hhd
          exact hhd
        subst hrcdot
        simp only [List.drop] at hw1 hw2
        unfold codeTokenB
        rw [hv, hrc]
        rw [takeWhile_append_all hdsall, dropWhile_append_all hdsall]
        rw [takeWhile_cons_neg (by decide), dropWhile_cons_neg (by decide)]
        simp [hne, hw1, hw2]

theorem specShape_codeShape {u : Chars} (h : specNumShapeB u = true) :
    codeTokenB u = true := by
  simp only [specNumShapeB] at h
  by_cases hm : (u.head? == some '-') = true
  · rw [if_pos hm] at h
    simp only [Bool.and_eq_true, Bool.or_eq_true, Bool.not_eq_true', Bool.and_eq_true] at h
    obtain ⟨hds, hrest⟩ := h
    cases hu : u with
    | nil => rw [hu] at hm; simp at hm
    | cons c u2 =>
        rw [hu] at hm
        have hc : c = '-' := by
          simp only [List.head?, beq_iff_eq, Option.some.injEq] at hm
          exact hm
        subst hc
        rw [hu] at hds hrest
        simp only [List.drop] at hds hrest
        have h0 := @codeTokenB_of_split ['-'] u2 (by decide) (by simpa using hds)
          (by rcases hrest with h1 | ⟨⟨h2, h3⟩, h4⟩
              · exact Or.inl h1
              · exact Or.inr ⟨h2, h3, h4⟩)
        simpa using h0
  · rw [if_neg hm] at h
    simp only [Bool.and_eq_true, Bool.or_eq_true, Bool.not_eq_true', Bool.and_eq_true] at h
    obtain ⟨hds, hrest⟩ := h
    have h0 := @codeTokenB_of_split [] u (by simp) (by simpa using hds)
      (by rcases hrest with h1 | ⟨⟨h2, h3⟩, h4⟩
          · exact Or.inl h1
          · exact Or.inr ⟨h2, h3, h4⟩)
    simpa using h0

/-- Claim C1, amended round trip: for every record whose metadata fields
contain no `INSERT INTO ` text and no closing parenthesis, whose
transaction text fields contain no `INSERT INTO ` text, whose amounts
are integral numbers, and whose transactions all carry a category,
decoding an encoding yields exactly the original transaction list,
field for field and in order.  (As frozen the claim fails: an absent
category decodes to the present empty string — see the counterexample.) -/
theorem C1_round_trip {nowIso : Chars} {data : StatementData} (nowId nowSaved nowDec : Int)
    (hiso : noMarkerB nowIso = true) (hmf : metaFieldsOK data = true)
    (htx : ∀ tx ∈ data.transactions, txFieldsOK tx = true)
    (hamt : ∀ tx ∈ data.transactions, intAmountB tx = true)
    (hcat : ∀ tx ∈ data.transactions, tx.category.isSome = true) :
    ∃ rec, parseSQL nowDec (generateSQL nowIso nowId nowSaved data) = .ok rec
      ∧ rec.transactions = data.transactions := by
  refine ⟨_, parseSQL_gen nowId nowSaved nowDec hiso hmf htx
    (fun tx h => int_of_amountB (hamt tx h)), ?_⟩
  simp only
  exact map_roundTx_id hcat

set_option maxRecDepth 100000 in
theorem C1_round_trip_witness :
    (noMarkerB isoX = true ∧ metaFieldsOK dataC4 = true
      ∧ (∀ tx ∈ dataC4.transactions, txFieldsOK tx = true)
      ∧ (∀ tx ∈ dataC4.transactions, intAmountB tx = true)
      ∧ (∀ tx ∈ dataC4.transactions, tx.category.isSome = true))
    ∧ ∃ rec, parseSQL 3 (generateSQL isoX 1 2 dataC4) = .ok rec
        ∧ rec.transactions = dataC4.transactions :=
  ⟨⟨by decide, by decide, by decide, by decide, by decide⟩,
    C1_round_trip 1 2 3 (by decide) (by decide) (by decide) (by decide) (by decide)⟩

set_option maxRecDepth 100000 in
/-- Claim C1 counterexample: a record with quote-free text fields whose
transaction has no category does not round-trip — the decoded category
is the present empty string. -/
theorem C1_cx :
    txsOf (parseSQL 7 (generateSQL isoX 1 2 dataC1)) ≠ dataC1.transactions := by decide

/-- Claim C2, amended: the block scanner passes quotes, parentheses,
commas and semicolons inside single-quoted literals through unchanged
as long as no field embeds `INSERT INTO ` text: every description —
including quotes, tuple boundaries and semicolons — decodes back to
the identical string, with no extra phantom tuples (the decoded list
has the original length).  (As frozen the claim fails: a later marker
scan re-enters quoted text and does treat quoted parentheses as tuple
delimiters — see the counterexample.) -/
theorem C2_quoted_delims {nowIso : Chars} {data : StatementData} (nowId nowSaved nowDec : Int)
    (hiso : noMarkerB nowIso = true) (hmf : metaFieldsOK data = true)
    (htx : ∀ tx ∈ data.transactions, txFieldsOK tx = true)
    (hamt : ∀ tx ∈ data.transactions, intAmountB tx = true) :
    ∃ rec, parseSQL nowDec (generateSQL nowIso nowId nowSaved data) = .ok rec
      ∧ rec.transactions.map (fun t => t.description)
          = data.transactions.map (fun t => t.description)
      ∧ rec.transactions.length = data.transactions.length := by
  refine ⟨_, parseSQL_gen nowId nowSaved nowDec hiso hmf htx
    (fun tx h => int_of_amountB (hamt tx h)), ?_, ?_⟩
  · simp only [List.map_map]
    rfl
  · simp only [List.length_map]

set_option maxRecDepth 100000 in
theorem C2_quoted_delims_witness :
    (noMarkerB isoX = true ∧ metaFieldsOK dataC2w = true
      ∧ (∀ tx ∈ dataC2w.transactions, txFieldsOK tx = true)
      ∧ (∀ tx ∈ dataC2w.transactions, intAmountB tx = true))
    ∧ ∃ rec, parseSQL 3 (generateSQL isoX 1 2 dataC2w) = .ok rec
        ∧ rec.transactions.map (fun t => t.description)
            = dataC2w.transactions.map (fun t => t.description)
        ∧ rec.transactions.length = dataC2w.transactions.length :=
  ⟨⟨by decide, by decide, by decide, by decide⟩,
    C2_quoted_delims 1 2 3 (by decide) (by decide) (by decide) (by decide)⟩

set_option maxRecDepth 100000 in
/-- Claim C2 counterexample: a record of two transactions — one whose
description is a transaction-insert marker, one whose description is a
parenthesized number list — decodes to three transactions: the quoted
parentheses were treated as tuple delimiters by a phantom re-scan. -/
theorem C2_cx : (txsOf (parseSQL 0 (generateSQL isoX 1 2 dataC2cx))).length = 3
    ∧ dataC2cx.transactions.length = 2 := by decide

/-- Claim C3, amended: decode depends on nothing but the text except
for one wall-clock fallback — the stored `saved_at` value, when falsy
(absent, zero or unparsable), is replaced by `Date.now()`.  Erasing
`savedAt` makes two runs agree exactly, and when the stored value is
truthy the whole decode is deterministic.  (As frozen the claim fails:
see the counterexample, a document whose stored `saved_at` is `0`.) -/
theorem C3_determinism : ∀ (s : Chars) (d1 d2 : Int),
    stripSaved (parseSQL d1 s) = stripSaved (parseSQL d2 s)
    ∧ (∀ cap, findStmt s = some cap → jsTruthy (valAt (extractValues cap) 5) = true →
        parseSQL d1 s = parseSQL d2 s) := by
  intro s d1 d2
  constructor
  · unfold parseSQL
    cases findStmt s with
    | none => rfl
    | some cap =>
        dsimp only
        by_cases hlen : (extractValues cap).length < 6
        · rw [if_pos hlen, if_pos hlen]
        · rw [if_neg hlen, if_neg hlen]
          rfl
  · intro cap hcap htr
    unfold parseSQL
    rw [hcap]
    dsimp only
    by_cases hlen : (extractValues cap).length < 6
    · rw [if_pos hlen, if_pos hlen]
    · rw [if_neg hlen, if_neg hlen]
      unfold numOr
      rw [if_pos htr, if_pos htr]

set_option maxRecDepth 100000 in
theorem C3_determinism_witness :
    stripSaved (parseSQL 1 docC8) = stripSaved (parseSQL 2 docC8)
    ∧ (findStmt docC8 = some (("1,2,3,4,5,6").toList)
        ∧ parseSQL 1 docC8 = parseSQL 2 docC8) :=
  ⟨(C3_determinism docC8 1 2).1,
    by decide,
    (C3_determinism docC8 1 2).2 (("1,2,3,4,5,6").toList) (by decide) (by decide)⟩

set_option maxRecDepth 100000 in
/-- Claim C3 counterexample: on a well-formed document whose stored
`saved_at` is the falsy `0`, two decode runs with different clock
samples return different records. -/
theorem C3_cx : savedOf (parseSQL 1 docC3) ≠ savedOf (parseSQL 2 docC3) := by decide

/-- Claim C4, amended: the sixth column of the emitted metadata tuple
is always the encode-time clock sample, never the record's `savedAt`;
the encoder's output does not depend on `savedAt` at all.  (As frozen
the claim fails: a present `savedAt` is ignored — see the
counterexample.) -/
theorem C4_saved_at :
    (∀ (sid : Chars) (data : StatementData) (nowSaved : Int),
        valAt (extractValues (metaInner sid data nowSaved)) 5
          = .vNum (some ((nowSaved : Int) : Rat)))
    ∧ (∀ (nowIso : Chars) (nowId nowSaved : Int) (data : StatementData) (v : Option JsNum),
        generateSQL nowIso nowId nowSaved { data with savedAt := v }
          = generateSQL nowIso nowId nowSaved data) := by
  constructor
  · intro sid data nowSaved
    rw [extractValues_metaInner]
    rfl
  · intro nowIso nowId nowSaved data v
    rfl

set_option maxRecDepth 100000 in
/-- Claim C4 counterexample: a record carrying `savedAt = 123` still
gets the clock sample `555` as the sixth metadata value. -/
theorem C4_cx : dataC4.savedAt = some (some ((123 : Int) : Rat))
    ∧ valAt (extractValues (metaInner (("S4").toList) dataC4 555)) 5
        = .vNum (some ((555 : Int) : Rat))
    ∧ ((555 : Int) : Rat) ≠ ((123 : Int) : Rat) := by decide

/-- Claim C5, amended: the emitted text before the metadata insert
depends on the input only through the bank name (interpolated into a
comment line, alongside the encode-time timestamp); the two `CREATE
TABLE` declarations themselves are fixed text closing every preamble.
(As frozen the claim fails: two records with different bank names get
different preambles — see the counterexample.) -/
theorem C5_preamble :
    (∀ (nowIso : Chars) (d1 d2 : StatementData), d1.bankName = d2.bankName →
        preambleText nowIso d1 = preambleText nowIso d2)
    ∧ (∀ (nowIso : Chars) (data : StatementData),
        ∃ p, preambleText nowIso data = p ++ createTablesText) := by
  constructor
  · intro nowIso d1 d2 h
    unfold preambleText bankDisp
    rw [h]
  · intro nowIso data
    exact ⟨hdrA1 ++ nowIso ++ hdrA2 ++ bankDisp data, by simp [preambleText]⟩

theorem C5_preamble_witness :
    (dataC5a.bankName = dataC5c.bankName
      ∧ preambleText isoX dataC5a = preambleText isoX dataC5c)
    ∧ ∃ p, preambleText isoX dataC5a = p ++ createTablesText :=
  ⟨⟨by decide, (C5_preamble).1 isoX dataC5a dataC5c (by decide)⟩,
    (C5_preamble).2 isoX dataC5a⟩

set_option maxRecDepth 100000 in
/-- Claim C5 counterexample: records with different bank names produce
different preamble text. -/
theorem C5_cx : preambleText isoX dataC5a ≠ preambleText isoX dataC5b := by decide

/-- Claim C6, amended: every token the numeric alternative accepts has
the shape `[-\d]+(\.\d+)?` — a nonempty run of digits or minus signs,
optionally followed by a decimal point and digits — and consumes
exactly itself; every token of the specification's stricter shape
(optional single leading minus, digits, optional fraction) is among
them.  (As frozen the claim fails: `5-3` is outside the stated shape
yet accepted, parsing to `NaN` — see the counterexample.) -/
theorem C6_numeric_shape :
    (∀ (s t r : Chars), numTok s = some (t, r) → codeTokenB t = true ∧ s = t ++ r)
    ∧ (∀ u : Chars, specNumShapeB u = true → codeTokenB u = true) :=
  ⟨fun _ _ _ h => numTok_shape h, fun _ h => specShape_codeShape h⟩

theorem C6_numeric_shape_witness :
    (codeTokenB (("-12.5").toList) = true
      ∧ ("-12.5x").toList = ("-12.5").toList ++ ("x").toList)
    ∧ codeTokenB (("7").toList) = true :=
  ⟨(C6_numeric_shape).1 (("-12.5x").toList) (("-12.5").toList) (("x").toList) (by decide),
    (C6_numeric_shape).2 (("7").toList) (by decide)⟩

/-- Claim C6 counterexample: `5-3` is not of the specified numeric
shape, yet the extractor accepts it as one token and appends the
non-number `NaN` to the output. -/
theorem C6_cx : specNumShapeB ['5', '-', '3'] = false
    ∧ numTok ['5', '-', '3'] = some (['5', '-', '3'], [])
    ∧ extractValues ['5', '-', '3'] = [.vNum none] := by decide

/-- Claim C7, confirmed: decode fails — always with the single generic
corrupt-file message — precisely when the metadata insert statement
cannot be located or when it yields fewer than 6 extracted values;
every other text decodes to a record. -/
theorem C7_error_boundary : ∀ (nowDec : Int) (s : Chars),
    match findStmt s with
    | none => parseSQL nowDec s = .error genericErr
    | some cap =>
        if (extractValues cap).length < 6 then parseSQL nowDec s = .error genericErr
        else ∃ rec, parseSQL nowDec s = .ok rec := by
  intro nowDec s
  unfold parseSQL
  cases findStmt s with
  | none => rfl
  | some cap =>
      dsimp only
      by_cases hlen : (extractValues cap).length < 6
      · rw [if_pos hlen, if_pos hlen]
      · rw [if_neg hlen, if_neg hlen]
        exact ⟨_, rfl⟩

theorem C7_error_boundary_witness :
    parseSQL 0 ([] : Chars) = .error genericErr :=
  C7_error_boundary 0 []

/-- Claim C8, confirmed: an `.ok` decode's transaction list is exactly
the completed tuples of the document filtered through the 9-column
gate — a tuple with fewer than 9 extracted values contributes nothing
and scanning continues, while every tuple with at least 9 values is
decoded, in order. -/
theorem C8_short_tuples : ∀ (nowDec : Int) (s : Chars) (rec : StatementData),
    parseSQL nowDec s = .ok rec →
    rec.transactions = (allTuples s).filterMap mkRowOpt := by
  intro nowDec s rec h
  unfold parseSQL at h
  cases hf : findStmt s with
  | none => rw [hf] at h; cases h
  | some cap =>
      rw [hf] at h
      dsimp only at h
      by_cases hlen : (extractValues cap).length < 6
      · rw [if_pos hlen] at h
        cases h
      · rw [if_neg hlen] at h
        injection h with h2
        rw [← h2]
        exact txLoop_eq_filterMap s

set_option maxRecDepth 100000 in
theorem C8_short_tuples_witness :
    parseSQL 0 docC8 = .ok recC8
    ∧ recC8.transactions = (allTuples docC8).filterMap mkRowOpt :=
  ⟨by decide, C8_short_tuples 0 docC8 recC8 (by decide)⟩

/-- Claim C9, amended: for statements whose fields embed no
`INSERT INTO ` text (and integral amounts), a document made of a
metadata statement followed by two concatenated transaction insert
statements decodes to the first statement's rows followed by the
second's, in source order.  (As frozen the claim fails: a field
containing marker text plus a complete parenthesized tuple injects a
phantom row between the two statements' rows — see the
counterexample.) -/
theorem C9_concat_order {dmeta : StatementData} {sid0 sid1 sid2 : Chars}
    {txs1 txs2 : List Transaction} (nowSaved nowDec : Int)
    (hs0 : noMarkerB sid0 = true) (hp0 : noParenB sid0 = true)
    (hmf : metaFieldsOK dmeta = true)
    (hs1 : noMarkerB sid1 = true) (hs2 : noMarkerB sid2 = true)
    (htx1 : ∀ tx ∈ txs1, txFieldsOK tx = true) (htx2 : ∀ tx ∈ txs2, txFieldsOK tx = true)
    (ham1 : ∀ tx ∈ txs1, intAmountB tx = true) (ham2 : ∀ tx ∈ txs2, intAmountB tx = true) :
    ∃ rec, parseSQL nowDec (metaStmtText sid0 dmeta nowSaved
        ++ (txStmtText sid1 txs1 ++ txStmtText sid2 txs2)) = .ok rec
      ∧ rec.transactions = txs1.map roundTx ++ txs2.map roundTx :=
  ⟨_, parseSQL_concat nowSaved nowDec hs0 hp0 hmf hs1 hs2 htx1 htx2
      (fun tx h => int_of_amountB (ham1 tx h)) (fun tx h => int_of_amountB (ham2 tx h)),
    rfl⟩

set_option maxRecDepth 200000 in
theorem C9_concat_order_witness :
    (noMarkerB sidC9 = true ∧ noParenB sidC9 = true ∧ metaFieldsOK metaC9 = true
      ∧ (∀ tx ∈ [txPlain], txFieldsOK tx = true) ∧ (∀ tx ∈ [txC9b], txFieldsOK tx = true)
      ∧ (∀ tx ∈ [txPlain], intAmountB tx = true) ∧ (∀ tx ∈ [txC9b], intAmountB tx = true))
    ∧ ∃ rec, parseSQL 0 (metaStmtText sidC9 metaC9 9
        ++ (txStmtText sidC9 [txPlain] ++ txStmtText sidC9 [txC9b])) = .ok rec
      ∧ rec.transactions = [txPlain].map roundTx ++ [txC9b].map roundTx :=
  ⟨⟨by decide, by decide, by decide, by decide, by decide, by decide, by decide⟩,
    C9_concat_order 9 0 (by decide) (by decide) (by decide) (by decide) (by decide)
      (by decide) (by decide) (by decide) (by decide)⟩

set_option maxRecDepth 200000 in
/-- Claim C9 counterexample: with a marker and a complete tuple inside
the first statement's quoted description, the decoded list is not the
concatenation of the two statements' rows — a phantom row appears
between them. -/
theorem C9_cx : txsOf (parseSQL 0 (docC9M ++ docC9T1 ++ docC9T2))
    ≠ [roundTx txC9a] ++ [roundTx txC9b] := by decide

/-- Claim C10, confirmed: an absent or empty id is replaced by the
timestamp-derived token, a nonempty id is used unchanged, and the
chosen statement id is embedded both as the metadata tuple's first
value and (via `rowText`) at the head of every transaction row. -/
theorem C10_stmt_id :
    (∀ (data : StatementData) (nowId : Int), data.id = none →
        stmtIdOf data nowId = intRepr nowId)
    ∧ (∀ (data : StatementData) (nowId : Int), data.id = some [] →
        stmtIdOf data nowId = intRepr nowId)
    ∧ (∀ (data : StatementData) (nowId : Int) (s : Chars), data.id = some s → s ≠ [] →
        stmtIdOf data nowId = s)
    ∧ (∀ (nowIso : Chars) (nowId nowSaved : Int) (data : StatementData),
        generateSQL nowIso nowId nowSaved data
          = preambleText nowIso data
            ++ metaStmtText (stmtIdOf data nowId) data nowSaved
            ++ (if data.transactions.isEmpty then []
                else txStmtText (stmtIdOf data nowId) data.transactions))
    ∧ (∀ (sid : Chars) (data : StatementData) (nowSaved : Int),
        valAt (extractValues (metaInner sid data nowSaved)) 0 = .vStr sid)
    ∧ (∀ (sid : Chars) (tx : Transaction),
        ∃ rest, rowText sid tx = '(' :: (sqlEscape (some sid) ++ rest)) := by
  refine ⟨?_, ?_, ?_, ?_, ?_, ?_⟩
  · intro data nowId h
    unfold stmtIdOf
    rw [h]
  · intro data nowId h
    unfold stmtIdOf
    rw [h]
    rfl
  · intro data nowId s h hne
    unfold stmtIdOf
    rw [h]
    dsimp only
    rw [if_neg (by
      rw [ne_eq, ← List.isEmpty_iff] at hne
      simpa using hne)]
  · intro nowIso nowId nowSaved data
    rfl
  · intro sid data nowSaved
    rw [extractValues_metaInner]
    rfl
  · intro sid tx
    refine ⟨(", ").toList
      ++ sqlEscape (some tx.date) ++ (", ").toList
      ++ numRepr tx.amount ++ (", ").toList
      ++ sqlEscape (some tx.description) ++ (", ").toList
      ++ sqlEscape (some tx.transaction_code) ++ (", ").toList
      ++ sqlEscape (some tx.partner_name) ++ (", ").toList
      ++ sqlEscape (some tx.partner_account) ++ (", ").toList
      ++ sqlEscape (some (typeChars tx.type)) ++ (", ").toList
      ++ sqlEscape tx.category ++ [')'], ?_⟩
    unfold rowText rowInner
    simp [List.append_assoc]

theorem C10_stmt_id_witness :
    (dataC10.id = some [] ∧ stmtIdOf dataC10 5 = intRepr 5)
    ∧ (dataC1.id = some (("S1").toList) ∧ ("S1").toList ≠ []
        ∧ stmtIdOf dataC1 5 = ("S1").toList) :=
  ⟨⟨by decide, (C10_stmt_id).2.1 dataC10 5 (by decide)⟩,
    ⟨by decide, by decide,
      (C10_stmt_id).2.2.1 dataC1 5 (("S1").toList) (by decide) (by decide)⟩⟩
